import Mathlib

/-!
Shallow embedding of the `capitalist-chess` rules engine (src/src/lib.rs,
src/src/board.rs, src/src/turn.rs, src/src/economy/*, src/src/engine/mod.rs).

Conventions of the embedding:
* `u64` bitboards are `Nat` values kept below `2 ^ 64`; the Rust bitwise
  complement `!x` is embedded as `xor` with `2 ^ 64 - 1`.
* Rust methods that mutate `self` and return `Result<(), ()>` become
  functions returning `RRes × State`, so the state left behind on the
  error path is visible.
* Loops over the set bits of a mask (low bit first) that only accumulate
  a union are embedded as folds over all 64 tiles, keeping only tiles
  whose bit is set; the per-bit computation depends only on the tile, so
  the union is the same.
* Source `panic!`/`assert!`/`unwrap()` sites are marked in comments; at
  those points the embedding returns an explicitly chosen value.
-/

/-- Result of Rust functions returning `Result<(), ()>`. -/
inductive RRes where
  | ok
  | err
  deriving DecidableEq, Repr

/-- `Color` (src/src/lib.rs). White is the default. -/
inductive Color where
  | white
  | black
  deriving DecidableEq, Repr

/-- `Color::enemy` / `Not for Color` (src/src/lib.rs). -/
def Color.enemy : Color → Color
  | .white => .black
  | .black => .white

/-- `PieceType` (src/src/lib.rs). -/
inductive PieceType where
  | pawn
  | knight
  | bishop
  | rook
  | queen
  | king
  deriving DecidableEq, Repr

/-- `PieceType::PROMOTIONS` (src/src/lib.rs). -/
def PieceType.PROMOTIONS : List PieceType := [.knight, .bishop, .rook, .queen]

/-- `PieceType::PURCHASES` (src/src/lib.rs). -/
def PieceType.PURCHASES : List PieceType := [.pawn, .knight, .bishop, .rook, .queen, .king]

/-- `CastlingSide` (src/src/lib.rs). -/
inductive CastlingSide where
  | king
  | queen
  deriving DecidableEq, Repr

/-- `Piece` (src/src/lib.rs): a piece type paired with a color. -/
structure Piece where
  ty : PieceType
  color : Color
  deriving DecidableEq, Repr

/-- `Piece::get_type`. -/
def Piece.get_type (p : Piece) : PieceType := p.ty

/-- `Piece::get_color`. -/
def Piece.get_color (p : Piece) : Color := p.color

/-- `Rank` (src/src/lib.rs): a `u8` row index; always kept in `0..=7`. -/
structure Rank where
  val : Nat
  deriving DecidableEq, Repr

/-- `File` (src/src/lib.rs): a `u8` column index; always kept in `0..=7`. -/
structure File where
  val : Nat
  deriving DecidableEq, Repr

def Rank.BOTTOM : Rank := ⟨0⟩
def Rank.TOP : Rank := ⟨7⟩
def Rank.BACK_RANK_WHITE : Rank := ⟨0⟩
def Rank.BACK_RANK_BLACK : Rank := ⟨7⟩
def Rank.PAWN_STARTER_WHITE : Rank := ⟨1⟩
def Rank.PAWN_STARTER_BLACK : Rank := ⟨6⟩

/-- `Rank::WHITE_DIRECTION` / `Rank::BLACK_DIRECTION` as an `i8`. -/
def Color.direction : Color → Int
  | .white => 1
  | .black => -1

/-- `Rank::advance` (src/src/lib.rs). The source panics when the result
leaves `0..=7`; the embedding returns the rank unchanged at that
(unreachable along legal paths) point. -/
def Rank.advance (r : Rank) (color : Color) (count : Int) : Rank :=
  let result : Int := (r.val : Int) + color.direction * count
  if 0 ≤ result ∧ result ≤ 7 then ⟨result.toNat⟩ else r

/-- `Rank::is_within` (src/src/lib.rs). -/
def Rank.is_within (r other : Rank) (n : Nat) : Bool :=
  ((r.val : Int) - (other.val : Int)).natAbs ≤ n

/-- `Rank::get_player_side` (src/src/lib.rs). -/
def Rank.get_player_side (r : Rank) : Color :=
  if r.val ≤ 3 then .white else .black

def File.LEFTMOST : File := ⟨0⟩
def File.RIGHTMOST : File := ⟨7⟩
def File.KING : File := ⟨4⟩
def File.KINGSIDE_CASTLE_DESTINATION : File := ⟨6⟩
def File.QUEENSIDE_CASTLE_DESTINATION : File := ⟨2⟩
def File.KINGSIDE_ROOK : File := ⟨7⟩
def File.QUEENSIDE_ROOK : File := ⟨0⟩

/-- `File::is_within` (src/src/lib.rs). -/
def File.is_within (f other : File) (n : Nat) : Bool :=
  ((f.val : Int) - (other.val : Int)).natAbs ≤ n

/-- `File::get_castling_side` (src/src/lib.rs). -/
def File.get_castling_side (f : File) : CastlingSide :=
  if f.val < 4 then .queen else .king

/-- `Sector` (src/src/lib.rs): one of the 16 fixed 2×2 blocks. -/
structure Sector where
  val : Nat
  deriving DecidableEq, Repr

def Sector.NUM_SECTORS : Nat := 16

/-- `Sector::from_index` (src/src/lib.rs); the assert is respected by all callers. -/
def Sector.from_index (index : Nat) : Sector := ⟨index⟩

/-- `Sector::get_index` (src/src/lib.rs). -/
def Sector.get_index (s : Sector) : Nat := s.val

/-- `Sector::is_center` (src/src/lib.rs). -/
def Sector.is_center (s : Sector) : Bool :=
  s.val = 5 ∨ s.val = 6 ∨ s.val = 9 ∨ s.val = 10

/-- `Sector::is_home_for` (src/src/lib.rs). -/
def Sector.is_home_for (s : Sector) (color : Color) : Bool :=
  match color with
  | .white => s.val ≤ 3
  | .black => 12 ≤ s.val

/-- `Tile` (src/src/lib.rs): a rank and a file. -/
structure Tile where
  rank : Rank
  file : File
  deriving DecidableEq, Repr

/-- `Tile::get_rank`. -/
def Tile.get_rank (t : Tile) : Rank := t.rank

/-- `Tile::get_file`. -/
def Tile.get_file (t : Tile) : File := t.file

def Tile.WHITE_QUEENSIDE_ROOK_START : Tile := ⟨Rank.BACK_RANK_WHITE, File.LEFTMOST⟩
def Tile.WHITE_KINGSIDE_ROOK_START : Tile := ⟨Rank.BACK_RANK_WHITE, File.RIGHTMOST⟩
def Tile.BLACK_QUEENSIDE_ROOK_START : Tile := ⟨Rank.BACK_RANK_BLACK, File.LEFTMOST⟩
def Tile.BLACK_KINGSIDE_ROOK_START : Tile := ⟨Rank.BACK_RANK_BLACK, File.RIGHTMOST⟩
def Tile.WHITE_KING_START : Tile := ⟨Rank.BACK_RANK_WHITE, File.KING⟩
def Tile.BLACK_KING_START : Tile := ⟨Rank.BACK_RANK_BLACK, File.KING⟩

/-- `Tile::king_start_position` (src/src/lib.rs). -/
def Tile.king_start_position : Color → Tile
  | .white => Tile.WHITE_KING_START
  | .black => Tile.BLACK_KING_START

/-- `Tile::rook_start_position` (src/src/lib.rs). -/
def Tile.rook_start_position : Color → CastlingSide → Tile
  | .white, .king => Tile.WHITE_KINGSIDE_ROOK_START
  | .white, .queen => Tile.WHITE_QUEENSIDE_ROOK_START
  | .black, .king => Tile.BLACK_KINGSIDE_ROOK_START
  | .black, .queen => Tile.BLACK_QUEENSIDE_ROOK_START

/-- `Tile::step_towards` (src/src/lib.rs): move one step orthogonally or
diagonally toward the target (the source updates `self` in place). -/
def Tile.step_towards (t target : Tile) : Tile :=
  let dr : Int :=
    if t.rank.val < target.rank.val then 1
    else if target.rank.val < t.rank.val then -1
    else 0
  let df : Int :=
    if t.file.val < target.file.val then 1
    else if target.file.val < t.file.val then -1
    else 0
  ⟨⟨((t.rank.val : Int) + dr).toNat⟩, ⟨((t.file.val : Int) + df).toNat⟩⟩

/-- `Tile::from_nth` (src/src/lib.rs). -/
def Tile.from_nth (n : Nat) : Tile := ⟨⟨n / 8⟩, ⟨n % 8⟩⟩

/-- `Tile::all` (src/src/lib.rs): the 64 tiles in rank-major order. -/
def Tile.all : List Tile := (List.range 64).map Tile.from_nth

/-- `Tile::advance` (src/src/lib.rs). -/
def Tile.advance (t : Tile) (color : Color) (count : Int) : Tile :=
  ⟨t.rank.advance color count, t.file⟩

/-- `Tile::move_by` (src/src/lib.rs): offset by a rank and a file delta,
`none` when the result leaves the board. -/
def Tile.move_by (t : Tile) (rank file : Int) : Option Tile :=
  let new_rank : Int := (t.rank.val : Int) + rank
  let new_file : Int := (t.file.val : Int) + file
  if new_rank < 8 ∧ new_file < 8 ∧ 0 ≤ new_rank ∧ 0 ≤ new_file then
    some ⟨⟨new_rank.toNat⟩, ⟨new_file.toNat⟩⟩
  else
    none

def Tile.WHITE_KINGSIDE_CASTLE_DESTINATION : Tile :=
  ⟨Rank.BACK_RANK_WHITE, File.KINGSIDE_CASTLE_DESTINATION⟩
def Tile.WHITE_QUEENSIDE_CASTLE_DESTINATION : Tile :=
  ⟨Rank.BACK_RANK_WHITE, File.QUEENSIDE_CASTLE_DESTINATION⟩
def Tile.BLACK_KINGSIDE_CASTLE_DESTINATION : Tile :=
  ⟨Rank.BACK_RANK_BLACK, File.KINGSIDE_CASTLE_DESTINATION⟩
def Tile.BLACK_QUEENSIDE_CASTLE_DESTINATION : Tile :=
  ⟨Rank.BACK_RANK_BLACK, File.QUEENSIDE_CASTLE_DESTINATION⟩

/-- `Tile::castling_destination_for_king` (src/src/lib.rs); the source
computes these via `move_by(..).unwrap()`, which never fails here. -/
def Tile.castling_destination_for_king : Color → CastlingSide → Tile
  | .white, .king => ⟨Rank.BACK_RANK_WHITE, ⟨6⟩⟩
  | .white, .queen => ⟨Rank.BACK_RANK_WHITE, ⟨2⟩⟩
  | .black, .king => ⟨Rank.BACK_RANK_BLACK, ⟨6⟩⟩
  | .black, .queen => ⟨Rank.BACK_RANK_BLACK, ⟨2⟩⟩

/-- `Tile::castling_destination_for_rook` (src/src/lib.rs): one file past
the king's destination, on the inner side. -/
def Tile.castling_destination_for_rook : Color → CastlingSide → Tile
  | .white, .king => ⟨Rank.BACK_RANK_WHITE, ⟨5⟩⟩
  | .white, .queen => ⟨Rank.BACK_RANK_WHITE, ⟨3⟩⟩
  | .black, .king => ⟨Rank.BACK_RANK_BLACK, ⟨5⟩⟩
  | .black, .queen => ⟨Rank.BACK_RANK_BLACK, ⟨3⟩⟩

/-- `Tile::get_player_side` (src/src/lib.rs). -/
def Tile.get_player_side (t : Tile) : Color := t.rank.get_player_side

/-- `Tile::get_castling_side` (src/src/lib.rs). -/
def Tile.get_castling_side (t : Tile) : CastlingSide := t.file.get_castling_side

/-- `Tile::get_sector_number` (src/src/lib.rs). -/
def Tile.get_sector_number (t : Tile) : Nat :=
  (t.rank.val / 2) * 4 + t.file.val / 2

/-- `Tile::get_sector` (src/src/lib.rs). -/
def Tile.get_sector (t : Tile) : Sector := ⟨t.get_sector_number⟩

/-- `Tile::to_bit` (src/src/lib.rs). -/
def Tile.to_bit (t : Tile) : Nat := 1 <<< (t.rank.val * 8 + t.file.val)

/-- `Tile::is_knight_move_away` (src/src/lib.rs). -/
def Tile.is_knight_move_away (t other : Tile) : Bool :=
  (t.rank.is_within other.rank 1 && t.file.is_within other.file 2)
    || (t.rank.is_within other.rank 2 && t.file.is_within other.file 1)

/-- `Tile::is_diagonal_to` (src/src/lib.rs). -/
def Tile.is_diagonal_to (t other : Tile) : Bool :=
  ((t.rank.val : Int) - (other.rank.val : Int)).natAbs
    = ((t.file.val : Int) - (other.file.val : Int)).natAbs

/-- `Tile::is_king_move_away` (src/src/lib.rs). -/
def Tile.is_king_move_away (t other : Tile) : Bool :=
  t.rank.is_within other.rank 1 && t.file.is_within other.file 1

/-- `Tile::is_rook_move_away` (src/src/lib.rs). -/
def Tile.is_rook_move_away (t other : Tile) : Bool :=
  t.rank = other.rank || t.file = other.file

/-- `Tile::is_bishop_move_away` (src/src/lib.rs). -/
def Tile.is_bishop_move_away (t other : Tile) : Bool :=
  t.is_diagonal_to other

/-- `Tile::is_queen_move_away` (src/src/lib.rs). -/
def Tile.is_queen_move_away (t other : Tile) : Bool :=
  t.is_rook_move_away other || t.is_bishop_move_away other

/-- `Tile::is_pawn_move_away` (src/src/lib.rs). -/
def Tile.is_pawn_move_away (t other : Tile) (color : Color) (is_attack : Bool)
    (en_passant_square : Option Tile) : Bool :=
  if is_attack then
    t.rank.advance color 1 = other.rank && t.file.is_within other.file 1
      && t.file ≠ other.file
  else if (match en_passant_square with
      | some en_passant =>
        en_passant = other && t.rank.advance color 1 = other.rank
          && t.file.is_within other.file 1 && t.file ≠ other.file
      | none => false) then
    true
  else if color = .white && t.rank = Rank.PAWN_STARTER_WHITE
      && t.rank.advance color 2 = other.rank && t.file = other.file then
    true
  else if color = .black && t.rank = Rank.PAWN_STARTER_BLACK
      && t.rank.advance color 2 = other.rank && t.file = other.file then
    true
  else
    t.rank.advance color 1 = other.rank && t.file = other.file

/-- `Tile::is_rook_square` (src/src/lib.rs). -/
def Tile.is_rook_square (t : Tile) (color : Color) : Bool :=
  ((color = .white && t.rank = Rank.BACK_RANK_WHITE)
      || (color = .black && t.rank = Rank.BACK_RANK_BLACK))
    && (t.file = File.KINGSIDE_ROOK || t.file = File.QUEENSIDE_ROOK)

/-- `Tile::is_castling_destination_for_king` (src/src/lib.rs). -/
def Tile.is_castling_destination_for_king (t : Tile) (color : Color) : Bool :=
  match color with
  | .white =>
    t = Tile.WHITE_KINGSIDE_CASTLE_DESTINATION || t = Tile.WHITE_QUEENSIDE_CASTLE_DESTINATION
  | .black =>
    t = Tile.BLACK_KINGSIDE_CASTLE_DESTINATION || t = Tile.BLACK_QUEENSIDE_CASTLE_DESTINATION

/-- `Tile::pawn_attacking_bits` (src/src/lib.rs). -/
def Tile.pawn_attacking_bits (t : Tile) (color : Color) : Nat :=
  let rank := (t.rank.advance color 1).val
  let file := t.file.val
  let bits := 0
  let bits := if 0 < t.file.val then bits ||| (1 <<< (rank * 8 + file - 1)) else bits
  if t.file.val < 7 then bits ||| (1 <<< (rank * 8 + file + 1)) else bits

/-- One candidate knight-target bit, guarded like the source. -/
def Tile.knight_bit (t : Tile) (dr df : Int) : Nat :=
  ((1 : Nat) <<< ((((t.rank.val : Int) + dr) * 8 + ((t.file.val : Int) + df)).toNat))

/-- `Tile::knight_attacking_bits` (src/src/lib.rs). -/
def Tile.knight_attacking_bits (t : Tile) : Nat :=
  let r := t.rank.val
  let f := t.file.val
  let bits := 0
  let bits := if 1 < r ∧ 0 < f then bits ||| t.knight_bit (-2) (-1) else bits
  let bits := if 1 < r ∧ f < 7 then bits ||| t.knight_bit (-2) 1 else bits
  let bits := if 0 < r ∧ 1 < f then bits ||| t.knight_bit (-1) (-2) else bits
  let bits := if 0 < r ∧ f < 6 then bits ||| t.knight_bit (-1) 2 else bits
  let bits := if r < 7 ∧ 1 < f then bits ||| t.knight_bit 1 (-2) else bits
  let bits := if r < 7 ∧ f < 6 then bits ||| t.knight_bit 1 2 else bits
  let bits := if r < 6 ∧ 0 < f then bits ||| t.knight_bit 2 (-1) else bits
  if r < 6 ∧ f < 7 then bits ||| t.knight_bit 2 1 else bits

/-- `Tile::diagonal_tiles` (src/src/lib.rs). -/
def Tile.diagonal_tiles (t : Tile) : List Tile :=
  Tile.all.filter (fun tile => t.is_diagonal_to tile)

/-- `Tile::rank_tiles` (src/src/lib.rs): despite the name, this walks all
ranks on the tile's file. -/
def Tile.rank_tiles (t : Tile) : List Tile :=
  (List.range 8).map (fun r => (⟨⟨r⟩, t.file⟩ : Tile))

/-- `Tile::file_tiles` (src/src/lib.rs): all files on the tile's rank. -/
def Tile.file_tiles (t : Tile) : List Tile :=
  (List.range 8).map (fun f => (⟨t.rank, ⟨f⟩⟩ : Tile))

/-- `Tile::pawn_moves` (src/src/lib.rs). -/
def Tile.pawn_moves (t : Tile) (color : Color) : List Tile :=
  let direction := color.direction
  let result := [t.move_by direction 1, t.move_by direction (-1), t.move_by direction 0]
  let result :=
    if t.rank = Rank.PAWN_STARTER_WHITE ∨ t.rank = Rank.PAWN_STARTER_BLACK then
      result ++ [t.move_by (direction * 2) 0]
    else result
  result.filterMap id

/-- `Tile::knight_moves` (src/src/lib.rs). -/
def Tile.knight_moves (t : Tile) : List Tile :=
  [t.move_by 2 1, t.move_by 2 (-1), t.move_by (-2) 1, t.move_by (-2) (-1),
    t.move_by 1 2, t.move_by 1 (-2), t.move_by (-1) 2, t.move_by (-1) (-2)].filterMap id

/-- `Tile::king_moves` (src/src/lib.rs). -/
def Tile.king_moves (t : Tile) : List Tile :=
  [t.move_by 1 1, t.move_by 1 (-1), t.move_by (-1) 1, t.move_by (-1) (-1),
    t.move_by 1 0, t.move_by (-1) 0, t.move_by 0 1, t.move_by 0 (-1)].filterMap id

/-- `Tile::get_moves` (src/src/lib.rs): candidate destinations by piece type. -/
def Tile.get_moves (t : Tile) (piece : Piece) : List Tile :=
  match piece.get_type with
  | .pawn => t.pawn_moves piece.get_color
  | .knight => t.knight_moves
  | .bishop => t.diagonal_tiles
  | .rook => t.rank_tiles ++ t.file_tiles
  | .queen => t.rank_tiles ++ t.file_tiles ++ t.diagonal_tiles
  | .king => t.king_moves

/-- `Tile::bishop_attacking_bits` (src/src/lib.rs). -/
def Tile.bishop_attacking_bits (t : Tile) : Nat :=
  t.diagonal_tiles.foldl (fun bits tile => bits ||| tile.to_bit) 0

/-- `Tile::rook_attacking_bits` (src/src/lib.rs). -/
def Tile.rook_attacking_bits (t : Tile) : Nat :=
  (t.rank_tiles ++ t.file_tiles).foldl (fun bits tile => bits ||| tile.to_bit) 0

/-- `Tile::queen_attacking_bits` (src/src/lib.rs). -/
def Tile.queen_attacking_bits (t : Tile) : Nat :=
  t.rook_attacking_bits ||| t.bishop_attacking_bits

/-- `Tile::king_attacking_bits` (src/src/lib.rs). -/
def Tile.king_attacking_bits (t : Tile) : Nat :=
  let r : Int := t.rank.val
  let f : Int := t.file.val
  ((List.range 3).map (fun i => r - 1 + i)).foldl (fun bits rank =>
    ((List.range 3).map (fun j => f - 1 + j)).foldl (fun bits file =>
      if rank = r ∧ file = f then bits
      else if rank < 0 ∨ 7 < rank ∨ file < 0 ∨ 7 < file then bits
      else bits ||| (1 <<< (rank * 8 + file).toNat)) bits) 0

mutual

/-- `Move` (src/src/turn.rs). `Many` holds a `Vec<Move>`, embedded with a
mutually inductive list so that all definitions recurse structurally. -/
inductive Move where
  | fromTo (frm dst : Tile) (promotion : Option PieceType)
  | pieceTo (piece : PieceType) (dst : Tile) (promotion : Option PieceType)
  | purchase (piece : PieceType) (dst : Tile)
  | castling (side : CastlingSide)
  | resign
  | pass
  | many (ms : MoveList)
  deriving DecidableEq, Repr

inductive MoveList where
  | nil
  | cons (m : Move) (ms : MoveList)
  deriving DecidableEq, Repr

end

/-- `Vec::is_empty` on the embedded move list. -/
def MoveList.isEmpty : MoveList → Bool
  | .nil => true
  | .cons _ _ => false

/-- Converts an ordinary list of moves into the embedded move list. -/
def MoveList.ofList : List Move → MoveList
  | [] => .nil
  | m :: ms => .cons m (MoveList.ofList ms)

/-- `CastlingRights` (src/src/board.rs). -/
structure CastlingRights where
  white_king_side : Bool
  white_queen_side : Bool
  black_king_side : Bool
  black_queen_side : Bool
  deriving DecidableEq, Repr

/-- `CastlingRights::default`: all four flags enabled. -/
def CastlingRights.default : CastlingRights := ⟨true, true, true, true⟩

/-- `CastlingRights::none` (src/src/board.rs). -/
def CastlingRights.none : CastlingRights := ⟨false, false, false, false⟩

/-- `CastlingRights::can_castle_color_and_side` (src/src/board.rs). -/
def CastlingRights.can_castle_color_and_side (cr : CastlingRights) :
    Color → CastlingSide → Bool
  | .white, .king => cr.white_king_side
  | .white, .queen => cr.white_queen_side
  | .black, .king => cr.black_king_side
  | .black, .queen => cr.black_queen_side

/-- `CastlingRights::disable_castling_color_and_side` (src/src/board.rs). -/
def CastlingRights.disable_castling_color_and_side (cr : CastlingRights) :
    Color → CastlingSide → CastlingRights
  | .white, .king => { cr with white_king_side := false }
  | .white, .queen => { cr with white_queen_side := false }
  | .black, .king => { cr with black_king_side := false }
  | .black, .queen => { cr with black_queen_side := false }

/-- `CastlingRights::disable_castling_color` (src/src/board.rs). -/
def CastlingRights.disable_castling_color (cr : CastlingRights) : Color → CastlingRights
  | .white => { cr with white_king_side := false, white_queen_side := false }
  | .black => { cr with black_king_side := false, black_queen_side := false }

/-- `CastlingRights::is_castling_move` (src/src/board.rs). -/
def CastlingRights.is_castling_move (cr : CastlingRights) (king rook : Tile) : Bool :=
  let color := king.get_player_side
  king = Tile.king_start_position color
    && (rook.is_castling_destination_for_king color || rook.is_rook_square color)
    && cr.can_castle_color_and_side color rook.get_castling_side

/-- `CastlingRights::can_castle` (src/src/board.rs). -/
def CastlingRights.can_castle (cr : CastlingRights) (king rook : Tile) : Bool :=
  if !cr.is_castling_move king rook then false
  else cr.can_castle_color_and_side king.get_player_side rook.get_castling_side

/-- `CastlingRights::disable_castling` (src/src/board.rs). -/
def CastlingRights.disable_castling (cr : CastlingRights) (king rook : Tile) : CastlingRights :=
  if !cr.is_castling_move king rook then cr
  else cr.disable_castling_color_and_side king.get_player_side rook.get_castling_side

/-- All 64 bits set: the value of `!0u64`. -/
def mask64 : Nat := 2 ^ 64 - 1

/-- The `u64` bitwise complement `!x` for `x < 2 ^ 64`. -/
def compl64 (x : Nat) : Nat := mask64 ^^^ x

/-- `move_bit` (src/src/board.rs): shift a bit from one tile to another,
leaving the mask alone when the source bit is clear. -/
def move_bit (board : Nat) (frm dst : Tile) : Nat :=
  let from_bit := frm.to_bit
  let to_bit := dst.to_bit
  if board &&& from_bit = 0 then board
  else (board &&& compl64 from_bit) ||| to_bit

/-- `sector_bits` (src/src/board.rs): the four bits of a sector that are
set in the given mask. -/
def sector_bits (board : Nat) (sector : Sector) : Nat :=
  let sector := sector.get_index
  let rank := sector / 4
  let file := sector % 4
  let result := (List.range 2).foldl (fun result i =>
    (List.range 2).foldl (fun result j =>
      result ||| (1 <<< ((rank * 2 + i) * 8 + file * 2 + j))) result) 0
  result &&& board

/-- `is_blocked` (src/src/board.rs): step at most 8 times from `frm`
toward `dst` and report an occupied strictly-intermediate square. The
source's `for`/`break` loop is embedded as fuelled recursion. -/
def is_blocked_go (board : Nat) (frm dst tile : Tile) : Nat → Bool
  | 0 => false
  | fuel + 1 =>
    let tile := tile.step_towards dst
    if tile = frm then is_blocked_go board frm dst tile fuel
    else if tile = dst then false
    else if board &&& tile.to_bit ≠ 0 then true
    else is_blocked_go board frm dst tile fuel

/-- `is_blocked` (src/src/board.rs), the free function. -/
def is_blocked_bits (board : Nat) (frm dst : Tile) : Bool :=
  is_blocked_go board frm dst frm 8

/-- `visible_pieces` (src/src/board.rs): keep only the attack bits whose
path from the origin is unobstructed. The source iterates over the set
bits of `vision` from the lowest up; the embedding folds over all 64
tiles and keeps tiles whose bit is set, which builds the same union. -/
def visible_pieces (all_pieces : Nat) (origin : Tile) (vision : Nat) : Nat :=
  Tile.all.foldl (fun result attack_tile =>
    if vision &&& attack_tile.to_bit = 0 then result
    else if is_blocked_bits all_pieces origin attack_tile then result
    else result ||| attack_tile.to_bit) 0

/-- `Board` (src/src/board.rs): twelve occupancy masks plus game state. -/
structure Board where
  white_pawns : Nat
  white_knights : Nat
  white_bishops : Nat
  white_rooks : Nat
  white_queens : Nat
  white_king : Nat
  black_pawns : Nat
  black_knights : Nat
  black_bishops : Nat
  black_rooks : Nat
  black_queens : Nat
  black_king : Nat
  en_passant : Option Tile
  castling_rights : CastlingRights
  current_turn : Color
  winner : Option Color
  deriving DecidableEq, Repr

/-- `Board::empty` (src/src/board.rs). -/
def Board.empty : Board :=
  ⟨0, 0, 0, 0, 0, 0, 0, 0, 0, 0, 0, 0, none, CastlingRights.none, .white, none⟩

/-- `Board::set_turn` (src/src/board.rs). -/
def Board.set_turn (b : Board) (color : Color) : Board :=
  { b with current_turn := color }

/-- `Board::whose_turn` (src/src/board.rs). -/
def Board.whose_turn (b : Board) : Color := b.current_turn

/-- `Board::get_castling_rights` (src/src/board.rs). -/
def Board.get_castling_rights (b : Board) : CastlingRights := b.castling_rights

/-- `Board::get_piece` (src/src/board.rs): first mask that holds the bit. -/
def Board.get_piece (b : Board) (location : Tile) : Option Piece :=
  let bit := location.to_bit
  if b.white_pawns &&& bit ≠ 0 then some ⟨.pawn, .white⟩
  else if b.white_knights &&& bit ≠ 0 then some ⟨.knight, .white⟩
  else if b.white_bishops &&& bit ≠ 0 then some ⟨.bishop, .white⟩
  else if b.white_rooks &&& bit ≠ 0 then some ⟨.rook, .white⟩
  else if b.white_queens &&& bit ≠ 0 then some ⟨.queen, .white⟩
  else if b.white_king &&& bit ≠ 0 then some ⟨.king, .white⟩
  else if b.black_pawns &&& bit ≠ 0 then some ⟨.pawn, .black⟩
  else if b.black_knights &&& bit ≠ 0 then some ⟨.knight, .black⟩
  else if b.black_bishops &&& bit ≠ 0 then some ⟨.bishop, .black⟩
  else if b.black_rooks &&& bit ≠ 0 then some ⟨.rook, .black⟩
  else if b.black_queens &&& bit ≠ 0 then some ⟨.queen, .black⟩
  else if b.black_king &&& bit ≠ 0 then some ⟨.king, .black⟩
  else none

/-- `Board::has_white_piece_on` (src/src/board.rs). -/
def Board.has_white_piece_on (b : Board) (location : Tile) : Bool :=
  let bit := location.to_bit
  b.white_pawns &&& bit ≠ 0 || b.white_knights &&& bit ≠ 0 || b.white_bishops &&& bit ≠ 0
    || b.white_rooks &&& bit ≠ 0 || b.white_queens &&& bit ≠ 0 || b.white_king &&& bit ≠ 0

/-- `Board::has_black_piece_on` (src/src/board.rs). -/
def Board.has_black_piece_on (b : Board) (location : Tile) : Bool :=
  let bit := location.to_bit
  b.black_pawns &&& bit ≠ 0 || b.black_knights &&& bit ≠ 0 || b.black_bishops &&& bit ≠ 0
    || b.black_rooks &&& bit ≠ 0 || b.black_queens &&& bit ≠ 0 || b.black_king &&& bit ≠ 0

/-- `Board::has_piece_on` (src/src/board.rs). -/
def Board.has_piece_on (b : Board) (location : Tile) : Bool :=
  b.has_white_piece_on location || b.has_black_piece_on location

/-- `Board::white_pieces_as_bits` (src/src/board.rs). -/
def Board.white_pieces_as_bits (b : Board) : Nat :=
  b.white_pawns ||| b.white_knights ||| b.white_bishops ||| b.white_rooks
    ||| b.white_queens ||| b.white_king

/-- `Board::black_pieces_as_bits` (src/src/board.rs). -/
def Board.black_pieces_as_bits (b : Board) : Nat :=
  b.black_pawns ||| b.black_knights ||| b.black_bishops ||| b.black_rooks
    ||| b.black_queens ||| b.black_king

/-- `Board::all_pieces_as_bits` (src/src/board.rs). -/
def Board.all_pieces_as_bits (b : Board) : Nat :=
  b.white_pieces_as_bits ||| b.black_pieces_as_bits

/-- `Board::get_king_bits` (src/src/board.rs). -/
def Board.get_king_bits (b : Board) : Color → Nat
  | .white => b.white_king
  | .black => b.black_king

/-- `Board::remove_piece` (src/src/board.rs): clear the bit in all masks. -/
def Board.remove_piece (b : Board) (location : Tile) : Board :=
  let bit := location.to_bit
  { b with
    white_pawns := b.white_pawns &&& compl64 bit
    white_knights := b.white_knights &&& compl64 bit
    white_bishops := b.white_bishops &&& compl64 bit
    white_rooks := b.white_rooks &&& compl64 bit
    white_queens := b.white_queens &&& compl64 bit
    white_king := b.white_king &&& compl64 bit
    black_pawns := b.black_pawns &&& compl64 bit
    black_knights := b.black_knights &&& compl64 bit
    black_bishops := b.black_bishops &&& compl64 bit
    black_rooks := b.black_rooks &&& compl64 bit
    black_queens := b.black_queens &&& compl64 bit
    black_king := b.black_king &&& compl64 bit }

/-- `Board::move_piece` (src/src/board.rs): clear the destination, then
shift the source bit on every mask. -/
def Board.move_piece (b : Board) (frm dst : Tile) : Board :=
  let b := b.remove_piece dst
  { b with
    white_pawns := move_bit b.white_pawns frm dst
    white_knights := move_bit b.white_knights frm dst
    white_bishops := move_bit b.white_bishops frm dst
    white_rooks := move_bit b.white_rooks frm dst
    white_queens := move_bit b.white_queens frm dst
    white_king := move_bit b.white_king frm dst
    black_pawns := move_bit b.black_pawns frm dst
    black_knights := move_bit b.black_knights frm dst
    black_bishops := move_bit b.black_bishops frm dst
    black_rooks := move_bit b.black_rooks frm dst
    black_queens := move_bit b.black_queens frm dst
    black_king := move_bit b.black_king frm dst }

/-- `Board::spawn` (src/src/board.rs): clear the tile, then set the bit in
the mask for the side to move and the given kind (via the `spawn_*`
one-liners). -/
def Board.spawn (b : Board) (piece : PieceType) (dst : Tile) : Board :=
  let b := b.remove_piece dst
  match b.current_turn, piece with
  | .white, .pawn => { b with white_pawns := b.white_pawns ||| dst.to_bit }
  | .white, .knight => { b with white_knights := b.white_knights ||| dst.to_bit }
  | .white, .bishop => { b with white_bishops := b.white_bishops ||| dst.to_bit }
  | .white, .rook => { b with white_rooks := b.white_rooks ||| dst.to_bit }
  | .white, .queen => { b with white_queens := b.white_queens ||| dst.to_bit }
  | .white, .king => { b with white_king := b.white_king ||| dst.to_bit }
  | .black, .pawn => { b with black_pawns := b.black_pawns ||| dst.to_bit }
  | .black, .knight => { b with black_knights := b.black_knights ||| dst.to_bit }
  | .black, .bishop => { b with black_bishops := b.black_bishops ||| dst.to_bit }
  | .black, .rook => { b with black_rooks := b.black_rooks ||| dst.to_bit }
  | .black, .queen => { b with black_queens := b.black_queens ||| dst.to_bit }
  | .black, .king => { b with black_king := b.black_king ||| dst.to_bit }

/-- Fold over the tiles whose bit is set in `mask`, accumulating a union.
This embeds the source's `while mask != 0` loops that pop the lowest set
bit and union a per-tile mask. -/
def mask_union (mask : Nat) (f : Tile → Nat) : Nat :=
  Tile.all.foldl (fun acc t => if mask &&& t.to_bit = 0 then acc else acc ||| f t) 0

/-- `Board::white_attacking_bits` (src/src/board.rs): pawn/bishop/rook/
queen/king attacks filtered by visibility, knights unfiltered. -/
def Board.white_attacking_bits (b : Board) : Nat :=
  let all_pieces_as_bits := b.all_pieces_as_bits
  let pawns := mask_union b.white_pawns
    (fun t => visible_pieces all_pieces_as_bits t (t.pawn_attacking_bits .white))
  let knights := mask_union b.white_knights (fun t => t.knight_attacking_bits)
  let bishops := mask_union b.white_bishops
    (fun t => visible_pieces all_pieces_as_bits t t.bishop_attacking_bits)
  let rooks := mask_union b.white_rooks
    (fun t => visible_pieces all_pieces_as_bits t t.rook_attacking_bits)
  let queens := mask_union b.white_queens
    (fun t => visible_pieces all_pieces_as_bits t t.queen_attacking_bits)
  let kings := mask_union b.white_king
    (fun t => visible_pieces all_pieces_as_bits t t.king_attacking_bits)
  pawns ||| knights ||| bishops ||| rooks ||| queens ||| kings

/-- `Board::black_attacking_bits` (src/src/board.rs). -/
def Board.black_attacking_bits (b : Board) : Nat :=
  let pawns := mask_union b.black_pawns
    (fun t => visible_pieces b.all_pieces_as_bits t (t.pawn_attacking_bits .black))
  let knights := mask_union b.black_knights (fun t => t.knight_attacking_bits)
  let bishops := mask_union b.black_bishops
    (fun t => visible_pieces b.all_pieces_as_bits t t.bishop_attacking_bits)
  let rooks := mask_union b.black_rooks
    (fun t => visible_pieces b.all_pieces_as_bits t t.rook_attacking_bits)
  let queens := mask_union b.black_queens
    (fun t => visible_pieces b.all_pieces_as_bits t t.queen_attacking_bits)
  let kings := mask_union b.black_king
    (fun t => visible_pieces b.all_pieces_as_bits t t.king_attacking_bits)
  pawns ||| knights ||| bishops ||| rooks ||| queens ||| kings

/-- `Board::get_attacking_bits` (src/src/board.rs). -/
def Board.get_attacking_bits (b : Board) : Color → Nat
  | .white => b.white_attacking_bits
  | .black => b.black_attacking_bits

/-- `Board::is_in_check` (src/src/board.rs). -/
def Board.is_in_check (b : Board) (color : Color) : Bool :=
  b.get_king_bits color &&& b.get_attacking_bits color.enemy ≠ 0

/-- `Board::is_blocked` (src/src/board.rs, the method). -/
def Board.is_blocked (b : Board) (frm dst : Tile) : Bool :=
  is_blocked_bits b.all_pieces_as_bits frm dst

/-- `Board::can_castle` (src/src/board.rs): rights enabled, king not in
check, path free of pieces and enemy-attacked squares, proper occupants. -/
def Board.can_castle (b : Board) (king rook : Tile) : Bool :=
  if !b.castling_rights.can_castle king rook then false
  else if b.is_in_check king.get_player_side then false
  else match b.get_piece king with
    | some king_piece =>
      let color := king_piece.get_color
      if is_blocked_bits (b.all_pieces_as_bits ||| b.get_attacking_bits color.enemy) king rook then
        false
      else match b.get_piece rook with
        | some rook_piece =>
          king_piece.get_type = PieceType.king && rook_piece.get_type = PieceType.rook
        | none => false
    | none => false

/-- `Board::is_castling_move` (src/src/board.rs, the method): a king on
`frm` and the castling-rights geometry test. -/
def Board.is_castling_move_check (b : Board) (frm dst : Tile) : Bool :=
  match b.get_piece frm with
  | some src_piece =>
    if src_piece.get_type = PieceType.king then
      b.get_castling_rights.is_castling_move frm dst
    else false
  | none => false

/-- `Piece::can_move` (src/src/lib.rs). -/
def Piece.can_move (p : Piece) (frm dst : Tile) (is_attack : Bool)
    (en_passant_tile : Option Tile) : Bool :=
  match p.get_type with
  | .pawn => frm.is_pawn_move_away dst p.get_color is_attack en_passant_tile
  | .knight => frm.is_knight_move_away dst
  | .bishop => frm.is_bishop_move_away dst
  | .rook => frm.is_rook_move_away dst
  | .queen => frm.is_queen_move_away dst
  | .king => frm.is_king_move_away dst

/-- `Board::is_in_check_after_move` (src/src/board.rs): probe on a copy
with the raw relocation applied and the turn restored. -/
def Board.is_in_check_after_move (b : Board) (color : Color) (frm dst : Tile) : Bool :=
  let copy := b.move_piece frm dst
  let copy := { copy with current_turn := b.current_turn }
  copy.is_in_check color

/-- `INSERT_SANITY_CHECKS` (src/src/lib.rs): `cfg!(debug_assertions)`,
false in release builds; the embedding models the release build, so the
debug-only `sanity_check` panics never fire. -/
def INSERT_SANITY_CHECKS : Bool := false

/-- `Board::is_legal_piece_move` (src/src/board.rs): the central legality
state machine. -/
def Board.is_legal_piece_move (b : Board) (frm dst : Tile) : Bool :=
  let src_piece := b.get_piece frm
  let dst_piece := b.get_piece dst
  match src_piece, dst_piece with
  | some src_piece, some _dst_piece =>
    if src_piece.get_color = (_dst_piece.get_color) then
      if b.is_castling_move_check frm dst && b.can_castle frm dst then true
      else false
    else if src_piece.get_color ≠ b.current_turn then false
    else if !src_piece.can_move frm dst true b.en_passant then false
    else if b.is_blocked frm dst && src_piece.get_type ≠ PieceType.knight then false
    else if b.is_in_check_after_move b.current_turn frm dst then false
    else true
  | some src_piece, none =>
    if src_piece.get_color ≠ b.current_turn then false
    else if b.is_castling_move_check frm dst then
      if b.can_castle frm dst then true else false
    else if !src_piece.can_move frm dst false b.en_passant then false
    else if b.is_blocked frm dst && src_piece.get_type ≠ PieceType.knight then false
    else if b.is_in_check_after_move b.current_turn frm dst then false
    else true
  | none, _ => false

/-- `Board::is_in_checkmate` (src/src/board.rs): in check, and no own
piece has a candidate destination passing `is_legal_piece_move`. -/
def Board.is_in_checkmate (b : Board) (color : Color) : Bool :=
  if !b.is_in_check color then false
  else !(Tile.all.any (fun tile =>
    match b.get_piece tile with
    | some piece =>
      piece.get_color = color
        && (tile.get_moves piece).any (fun dst => b.is_legal_piece_move tile dst)
    | none => false))

/-- `Board::is_stalemate` (src/src/board.rs): not in check, and no legal
piece move for the side to move. -/
def Board.is_stalemate (b : Board) : Bool :=
  if b.is_in_check b.current_turn then false
  else !(Tile.all.any (fun tile =>
    match b.get_piece tile with
    | some piece =>
      piece.get_color = b.current_turn
        && (tile.get_moves piece).any (fun dst => b.is_legal_piece_move tile dst)
    | none => false))

/-- `Board::is_en_passant_capture` (src/src/board.rs). -/
def Board.is_en_passant_capture (b : Board) (frm dst : Tile) : Bool :=
  match b.en_passant with
  | some en_passant =>
    if en_passant = dst then
      match b.get_piece frm with
      | some piece => piece.get_type = PieceType.pawn
      | none => false
    else false
  | none => false

/-- `Board::capture_en_passant` (src/src/board.rs): remove the passed
pawn one rank behind the target, relocate the capturer, clear the target.
The source `unwrap`s the en-passant tile; callers guarantee it is set,
and the embedding leaves the board unchanged otherwise. -/
def Board.capture_en_passant (b : Board) (frm : Tile) : Board :=
  match b.en_passant with
  | some en_passant =>
    let en_passant_pawn := en_passant.advance b.current_turn (-1)
    let b := b.remove_piece en_passant_pawn
    let b := b.move_piece frm en_passant
    { b with en_passant := none }
  | none => b

/-- `Board::detect_possible_en_passant` (src/src/board.rs): clear the
target, then re-arm it behind a pawn that just double-stepped. -/
def Board.detect_possible_en_passant (b : Board) (frm dst : Tile) : Board :=
  let b := { b with en_passant := none }
  match b.get_piece frm with
  | some piece =>
    if piece.get_type = PieceType.pawn then
      if frm.get_rank = Rank.PAWN_STARTER_WHITE ∨ frm.get_rank = Rank.PAWN_STARTER_BLACK then
        if dst.get_rank = (⟨3⟩ : Rank) ∨ dst.get_rank = (⟨4⟩ : Rank) then
          { b with en_passant := some (frm.advance b.current_turn 1) }
        else b
      else b
    else b
  | none => b

/-- `Board::set_winner` (src/src/board.rs). -/
def Board.set_winner (b : Board) (winner : Color) : Board :=
  { b with winner := some winner }

/-- `Board::get_eligible_piece` (src/src/board.rs): first own piece of
the kind, in tile-scan order, whose geometry reaches the target. -/
def Board.get_eligible_piece (b : Board) (piece : PieceType) (dst : Tile) : Option Tile :=
  let is_attack := b.has_piece_on dst
  (Tile.all.find? (fun tile =>
    match b.get_piece tile with
    | some src_piece =>
      src_piece.get_type = piece && src_piece.get_color = b.current_turn
        && src_piece.can_move tile dst is_attack b.en_passant
    | none => false))

/-- `Board::perform_castling` (src/src/board.rs): revoke the pair's
rights, then move king and rook to their fixed destinations. -/
def Board.perform_castling (b : Board) (king_tile rook_tile : Tile) : Board :=
  if !b.is_castling_move_check king_tile rook_tile then b
  else
    let b := { b with
      castling_rights := b.castling_rights.disable_castling king_tile rook_tile }
    let side := rook_tile.get_castling_side
    let new_king_tile := Tile.castling_destination_for_king b.current_turn side
    let b := b.move_piece king_tile new_king_tile
    let new_rook_tile := Tile.castling_destination_for_rook b.current_turn side
    b.move_piece rook_tile new_rook_tile

/-- `Board::detect_disabled_castling_rights` (src/src/board.rs). -/
def Board.detect_disabled_castling_rights (b : Board) (frm dst : Tile) : Board :=
  if b.is_castling_move_check frm dst then
    { b with castling_rights := b.castling_rights.disable_castling_color b.current_turn }
  else if frm = Tile.WHITE_KINGSIDE_ROOK_START ∨ frm = Tile.WHITE_QUEENSIDE_ROOK_START then
    let b :=
      if frm = Tile.WHITE_KINGSIDE_ROOK_START then
        { b with castling_rights :=
          b.castling_rights.disable_castling_color_and_side .white .king }
      else b
    if frm = Tile.WHITE_QUEENSIDE_ROOK_START then
      { b with castling_rights :=
        b.castling_rights.disable_castling_color_and_side .white .queen }
    else b
  else if frm = Tile.BLACK_KINGSIDE_ROOK_START ∨ frm = Tile.BLACK_QUEENSIDE_ROOK_START then
    let b :=
      if frm = Tile.BLACK_KINGSIDE_ROOK_START then
        { b with castling_rights :=
          b.castling_rights.disable_castling_color_and_side .black .king }
      else b
    if frm = Tile.BLACK_QUEENSIDE_ROOK_START then
      { b with castling_rights :=
        b.castling_rights.disable_castling_color_and_side .black .queen }
    else b
  else if frm = Tile.WHITE_KING_START then
    { b with castling_rights := b.castling_rights.disable_castling_color .white }
  else if frm = Tile.BLACK_KING_START then
    { b with castling_rights := b.castling_rights.disable_castling_color .black }
  else b

/-- `Board::is_valid_promotion` (src/src/board.rs). -/
def Board.is_valid_promotion (b : Board) (frm dst : Tile) : Bool :=
  match b.get_piece frm with
  | some piece =>
    if piece.get_type = PieceType.pawn then
      if dst.get_rank = Rank.BACK_RANK_BLACK ∧ piece.get_color = Color.white then true
      else if dst.get_rank = Rank.BACK_RANK_WHITE ∧ piece.get_color = Color.black then true
      else false
    else false
  | none => false

/-- `Board::perform_move_from_to` (src/src/board.rs): validate, then
castle / capture en passant / promote / relocate, flipping the turn. -/
def Board.perform_move_from_to (b : Board) (frm dst : Tile)
    (promotion : Option PieceType) : RRes × Board :=
  if !b.is_legal_piece_move frm dst then (.err, b)
  else match b.get_piece frm with
  | none => (.err, b)
  | some piece =>
    let b := { b with current_turn := piece.get_color }
    if b.is_castling_move_check frm dst then
      let b := b.perform_castling frm dst
      (.ok, { b with current_turn := b.current_turn.enemy })
    else
      let b := b.detect_disabled_castling_rights frm dst
      if b.is_en_passant_capture frm dst then
        let b := b.capture_en_passant frm
        (.ok, { b with current_turn := b.current_turn.enemy })
      else
        let b := b.remove_piece dst
        if b.is_valid_promotion frm dst then
          let promotion := promotion.getD PieceType.queen
          let b := b.remove_piece frm
          let b := b.spawn promotion dst
          (.ok, { b with current_turn := b.current_turn.enemy })
        else
          let b := b.detect_possible_en_passant frm dst
          let b := b.move_piece frm dst
          (.ok, { b with current_turn := b.current_turn.enemy })

mutual

/-- `Board::apply` (src/src/board.rs). The `Many` arm restores the saved
turn before each sub-move; a failing sub-move propagates the error with
the partially mutated board. -/
def Board.apply (b : Board) : Move → RRes × Board
  | .fromTo frm dst promotion => b.perform_move_from_to frm dst promotion
  | .pieceTo piece dst promotion =>
    match b.get_eligible_piece piece dst with
    | some frm => b.perform_move_from_to frm dst promotion
    | none => (.err, b)
  | .castling side =>
    let king := Tile.king_start_position b.current_turn
    let rook := Tile.rook_start_position b.current_turn side
    b.perform_move_from_to king rook none
  | .many ms =>
    if ms.isEmpty then (.ok, b)
    else Board.apply_many b.current_turn b ms
  | .resign =>
    let b := b.set_winner b.current_turn.enemy
    (.ok, { b with current_turn := b.current_turn.enemy })
  | .pass => (.ok, { b with current_turn := b.current_turn.enemy })
  | .purchase piece dst =>
    let b := b.spawn piece dst
    (.ok, { b with current_turn := b.current_turn.enemy })

/-- The loop of `Board::apply`'s `Many` arm (src/src/board.rs lines
1019-1027): set the turn back to `turn`, apply the sub-move, stop on
error; after the loop, the turn is flipped once. -/
def Board.apply_many (turn : Color) (b : Board) : MoveList → RRes × Board
  | .nil => (.ok, { b with current_turn := turn.enemy })
  | .cons m ms =>
    let b := { b with current_turn := turn }
    match Board.apply b m with
    | (.ok, b2) => Board.apply_many turn b2 ms
    | (.err, b2) => (.err, b2)

end

mutual

/-- `Board::is_legal_move` (src/src/board.rs): the public legality test. -/
def Board.is_legal_move (b : Board) : Move → Bool
  | .castling side =>
    let king := Tile.king_start_position b.current_turn
    let rook := Tile.rook_start_position b.current_turn side
    b.can_castle king rook
  | .fromTo frm dst _ => b.is_legal_piece_move frm dst
  | .pieceTo piece dst _ =>
    match b.get_eligible_piece piece dst with
    | some frm => b.is_legal_piece_move frm dst
    | none => false
  | .pass => false
  | .resign => true
  | .many ms =>
    if ms.isEmpty then false
    else Board.is_legal_many b.whose_turn b ms
  | .purchase _ dst => !b.has_piece_on dst && !b.is_in_check b.whose_turn

/-- The loop of `Board::is_legal_move`'s `Many` arm (src/src/board.rs
lines 802-821): on a copy, reset the turn, test legality, reset the turn,
apply, and reset the turn again. -/
def Board.is_legal_many (turn : Color) (copy : Board) : MoveList → Bool
  | .nil => true
  | .cons m ms =>
    let copy := { copy with current_turn := turn }
    if !copy.is_legal_move m then false
    else
      let copy := { copy with current_turn := turn }
      match copy.apply m with
      | (.ok, copy2) => Board.is_legal_many turn { copy2 with current_turn := turn } ms
      | (.err, _) => false

end

/-- `Move::legal_moves` (src/src/turn.rs): per-tile candidates filtered by
`is_legal_piece_move`, promotions expanded, castling moves appended. -/
def Move.legal_moves (board : Board) : List Move :=
  let turn := board.whose_turn
  let result := Tile.all.foldl (fun result tile =>
    match board.get_piece tile with
    | some piece =>
      if piece.get_color = turn then
        (tile.get_moves piece).foldl (fun result dst =>
          if board.is_legal_piece_move tile dst then
            if board.is_valid_promotion tile dst then
              result ++ PieceType.PROMOTIONS.map (fun pt => Move.fromTo tile dst (some pt))
            else
              result ++ [Move.fromTo tile dst none]
          else result) result
      else result
    | none => result) []
  let king_tile := Tile.king_start_position turn
  let result :=
    if board.can_castle king_tile (Tile.rook_start_position turn .king) then
      result ++ [Move.castling .king]
    else result
  if board.can_castle king_tile (Tile.rook_start_position turn .queen) then
    result ++ [Move.castling .queen]
  else result

/-- `PieceType::from_str` (src/src/lib.rs), on the single character of the
one-byte slice the parser passes. -/
def PieceType.parse_char : Char → Option PieceType
  | 'P' => some .pawn
  | 'N' => some .knight
  | 'B' => some .bishop
  | 'R' => some .rook
  | 'Q' => some .queen
  | 'K' => some .king
  | _ => none

/-- `Rank::from_char` (src/src/lib.rs); the source asserts `'1'..='8'`
(panics otherwise), embedded as `none`. -/
def Rank.from_char (c : Char) : Option Rank :=
  if '1' ≤ c ∧ c ≤ '8' then some ⟨c.toNat - 49⟩ else none

/-- `File::from_char` (src/src/lib.rs): lowercases, then asserts
`'a'..='h'` (panics otherwise, embedded as `none`). -/
def File.from_char (c : Char) : Option File :=
  let c := c.toLower
  if 'a' ≤ c ∧ c ≤ 'h' then some ⟨c.toNat - 97⟩ else none

/-- `Tile::from_str` (src/src/lib.rs): a file character then a rank
character; any other shape fails (the source errors on wrong length and
panics inside `from_char`). -/
def Tile.parse_chars : List Char → Option Tile
  | [file, rank] =>
    match Rank.from_char rank, File.from_char file with
    | some r, some f => some ⟨r, f⟩
    | _, _ => none
  | _ => none

/-- The per-word loop of `FromStr for Move` (src/src/turn.rs). Castling,
`resign` and `pass` return immediately, discarding earlier words; other
words push onto `moves`. The source `unwrap`s the tile/piece sub-parses
(panicking on malformed input), embedded as parse failure. -/
def Move.from_str_go (acc : List Move) : List (List Char) → Option Move
  | [] =>
    match acc with
    | [m] => some m
    | ms => some (.many (MoveList.ofList ms))
  | w :: ws =>
    if w = ['O', '-', 'O'] then some (.castling .king)
    else if w = ['O', '-', 'O', '-', 'O'] then some (.castling .queen)
    else if w = ['r', 'e', 's', 'i', 'g', 'n'] then some .resign
    else if w = ['p', 'a', 's', 's'] then some .pass
    else if w.take 1 = ['$'] then
      match PieceType.parse_char (w.drop 1).headI, Tile.parse_chars ((w.drop 2).take 2) with
      | some piece, some dst => Move.from_str_go (acc ++ [.purchase piece dst]) ws
      | _, _ => none
    else if w.length = 4 then
      match Tile.parse_chars (w.take 2), Tile.parse_chars ((w.drop 2).take 2) with
      | some frm, some dst => Move.from_str_go (acc ++ [.fromTo frm dst none]) ws
      | _, _ => none
    else if w.length = 3 then
      match PieceType.parse_char w.headI, Tile.parse_chars ((w.drop 1).take 2) with
      | some piece, some dst => Move.from_str_go (acc ++ [.pieceTo piece dst none]) ws
      | _, _ => none
    else if w.length = 2 then
      match Tile.parse_chars (w.take 2) with
      | some dst => Move.from_str_go (acc ++ [.pieceTo .pawn dst none]) ws
      | none => none
    else none

/-- `str::split_whitespace` (Rust std): the maximal runs of
non-whitespace characters, in order. -/
def split_whitespace_go (cur : List Char) (acc : List (List Char)) :
    List Char → List (List Char)
  | [] => if cur.isEmpty then acc else acc ++ [cur]
  | c :: cs =>
    if c.isWhitespace then
      if cur.isEmpty then split_whitespace_go [] acc cs
      else split_whitespace_go [] (acc ++ [cur]) cs
    else split_whitespace_go (cur ++ [c]) acc cs

/-- `FromStr for Move` (src/src/turn.rs): split on whitespace, parse each
word, wrap several moves in `Many`. `Result<Move, ()>` is `Option Move`. -/
def Move.from_str (s : String) : Option Move :=
  Move.from_str_go [] (split_whitespace_go [] [] s.toList)

/-- `Currency` (src/src/economy/currency.rs): an `i32` amount. The values
reached here stay far from the `i32` bounds, so overflow is not modelled. -/
structure Currency where
  amount : Int
  deriving DecidableEq, Repr

def Currency.zero : Currency := ⟨0⟩
def Currency.penny : Currency := ⟨1⟩
def Currency.doubloon : Currency := ⟨10⟩

/-- `Add for Currency`. -/
def Currency.add (a b : Currency) : Currency := ⟨a.amount + b.amount⟩

/-- `Sub for Currency`. -/
def Currency.sub (a b : Currency) : Currency := ⟨a.amount - b.amount⟩

/-- `Mul<i32> for Currency`. -/
def Currency.mul_int (a : Currency) (k : Int) : Currency := ⟨a.amount * k⟩

/-- `PartialOrd`-derived `<` on `Currency`. -/
def Currency.lt (a b : Currency) : Bool := a.amount < b.amount

/-- `PartialOrd`-derived `>=` on `Currency`. -/
def Currency.ge (a b : Currency) : Bool := b.amount ≤ a.amount

/-- `Currency::penny() * piece.get_type().get_value()` as computed by
`get_sector_values` (src/src/board.rs): `Mul<f64>` truncates
`1.0 * {1.0, 3.0, 3.15, 5.0, 9.0, 100.0}` toward zero, exactly. -/
def PieceType.penny_value : PieceType → Currency
  | .pawn => ⟨1⟩
  | .knight => ⟨3⟩
  | .bishop => ⟨3⟩
  | .rook => ⟨5⟩
  | .queen => ⟨9⟩
  | .king => ⟨100⟩

/-- `Market` (src/src/economy/market.rs). The source keeps
`move_interest_rate` as an `f64`; it is embedded as an integer rate,
which computes the same `Many`-move prices for whole-number rates such as
the default `2.0`. -/
structure Market where
  pawn_value : Currency
  knight_value : Currency
  bishop_value : Currency
  rook_value : Currency
  queen_value : Currency
  king_value : Currency
  base_move_cost : Currency
  castling_value : Currency
  pass_value : Currency
  center_sector_income_value : Currency
  outer_sector_income_value : Currency
  move_interest_rate : Int
  deriving DecidableEq, Repr

/-- `Market::get_piece_value` (src/src/economy/market.rs). -/
def Market.get_piece_value (mk : Market) : PieceType → Currency
  | .pawn => mk.pawn_value
  | .knight => mk.knight_value
  | .bishop => mk.bishop_value
  | .rook => mk.rook_value
  | .queen => mk.queen_value
  | .king => mk.king_value

/-- `Market::get_sector_value` (src/src/economy/market.rs). -/
def Market.get_sector_value (mk : Market) (sector : Sector) : Currency :=
  if sector.is_center then mk.center_sector_income_value
  else mk.outer_sector_income_value

mutual

/-- `Market::get_move_value` (src/src/economy/market.rs). -/
def Market.get_move_value (mk : Market) : Move → Currency
  | .fromTo _ _ _ => mk.base_move_cost
  | .pieceTo _ _ _ => mk.base_move_cost
  | .purchase piece _ => mk.get_piece_value piece
  | .castling _ => mk.castling_value
  | .many ms => Market.many_move_value mk 0 ms
  | .pass => mk.pass_value
  | .resign => Currency.zero

/-- The `Many` accumulation of `get_move_value`: each later sub-move costs
its value times `rate ^ index`. -/
def Market.many_move_value (mk : Market) (i : Nat) : MoveList → Currency
  | .nil => Currency.zero
  | .cons m ms =>
    (Currency.mul_int (mk.get_move_value m) (mk.move_interest_rate ^ i)).add
      (Market.many_move_value mk (i + 1) ms)

end

/-- `Board::get_sector_values` (src/src/board.rs): the white and black
piece value inside a sector, in pennies. -/
def Board.get_sector_values (b : Board) (sector : Sector) : Currency × Currency :=
  let sb := sector_bits b.all_pieces_as_bits sector
  let other_sector_bits := compl64 sb
  let board : Board := { b with
    white_pawns := b.white_pawns &&& sb
    white_knights := b.white_knights &&& sb
    white_bishops := b.white_bishops &&& sb
    white_rooks := b.white_rooks &&& sb
    white_queens := b.white_queens &&& sb
    white_king := b.white_king &&& sb
    black_pawns := b.black_pawns &&& sb
    black_knights := b.black_knights &&& sb
    black_bishops := b.black_bishops &&& sb
    black_rooks := b.black_rooks &&& sb
    black_queens := b.black_queens &&& sb
    black_king := b.black_king &&& sb }
  Tile.all.foldl (fun acc tile =>
    if other_sector_bits &&& tile.to_bit ≠ 0 then acc
    else match board.get_piece tile with
      | some piece =>
        let value := piece.get_type.penny_value
        match piece.get_color with
        | .white => (acc.1.add value, acc.2)
        | .black => (acc.1, acc.2.add value)
      | none => acc) (Currency.zero, Currency.zero)

/-- `Board::who_controls_sector` (src/src/board.rs). -/
def Board.who_controls_sector (b : Board) (sector : Sector) : Option Color :=
  let values := b.get_sector_values sector
  if values.2.lt values.1 then some .white
  else if values.1.lt values.2 then some .black
  else none

/-- `Board::controls_sector` (src/src/board.rs). -/
def Board.controls_sector (b : Board) (sector : Sector) (color : Color) : Bool :=
  b.who_controls_sector sector = some color

/-- `Board::get_controlled_sectors` (src/src/board.rs): the 16 control
flags in sector order. -/
def Board.get_controlled_sectors (b : Board) (color : Color) : List Bool :=
  (List.range Sector.NUM_SECTORS).map (fun sector =>
    b.controls_sector (Sector.from_index sector) color)

/-- `Bank` (src/src/economy/bank.rs). -/
structure Bank where
  color : Color
  balance : Currency
  market : Market
  sectors : List Bool
  deriving DecidableEq, Repr

/-- `Bank::get_color`. -/
def Bank.get_color (bank : Bank) : Color := bank.color

/-- `Bank::get_balance`. -/
def Bank.get_balance (bank : Bank) : Currency := bank.balance

/-- `Bank::get_market`. -/
def Bank.get_market (bank : Bank) : Market := bank.market

/-- `Bank::can_afford` (src/src/economy/bank.rs). -/
def Bank.can_afford (bank : Bank) (player_move : Move) : Bool :=
  bank.balance.ge (bank.market.get_move_value player_move)

/-- `Bank::withdraw` (src/src/economy/bank.rs): error (and no mutation)
when the balance is short. -/
def Bank.withdraw (bank : Bank) (amount : Currency) : RRes × Bank :=
  if bank.balance.lt amount then (.err, bank)
  else (.ok, { bank with balance := bank.balance.sub amount })

/-- `Bank::purchase` (src/src/economy/bank.rs). -/
def Bank.purchase (bank : Bank) (player_move : Move) : RRes × Bank :=
  bank.withdraw (bank.market.get_move_value player_move)

/-- `Bank::calculate_income` (src/src/economy/bank.rs). -/
def Bank.calculate_income (bank : Bank) : Currency :=
  bank.sectors.enum.foldl (fun income p =>
    if p.2 then income.add (bank.get_market.get_sector_value (Sector.from_index p.1))
    else income) Currency.zero

/-- `Bank::perform_census` (src/src/economy/bank.rs): refresh the owned
sectors, then deposit the income they yield. -/
def Bank.perform_census (bank : Bank) (board : Board) : Bank :=
  let bank := { bank with sectors := board.get_controlled_sectors bank.get_color }
  { bank with balance := bank.balance.add bank.calculate_income }

/-- `Move::legal_purchases` (src/src/turn.rs). -/
def Move.legal_purchases (board : Board) (bank : Bank) : List Move :=
  Tile.all.foldl (fun result dst =>
    if !board.has_piece_on dst then
      PieceType.PURCHASES.foldl (fun result piece =>
        let player_move := Move.purchase piece dst
        if dst.get_sector.is_home_for bank.get_color && bank.can_afford player_move
            && !(board.is_in_check board.whose_turn) then
          result ++ [player_move]
        else result) result
    else result) []

/-- `StateCapitalistBoard` (src/src/economy/mod.rs). -/
structure StateCapitalistBoard where
  market : Market
  white_bank : Bank
  black_bank : Bank
  board : Board
  deriving DecidableEq, Repr

/-- `StateCapitalistBoard::get_piece`. -/
def StateCapitalistBoard.get_piece (s : StateCapitalistBoard) (tile : Tile) : Option Piece :=
  s.board.get_piece tile

/-- `StateCapitalistBoard::whose_turn`. -/
def StateCapitalistBoard.whose_turn (s : StateCapitalistBoard) : Color :=
  s.board.whose_turn

/-- `StateCapitalistBoard::get_bank` (src/src/economy/mod.rs). -/
def StateCapitalistBoard.get_bank (s : StateCapitalistBoard) : Color → Bank
  | .white => s.white_bank
  | .black => s.black_bank

/-- The write-back of `get_bank_mut` (src/src/economy/mod.rs). -/
def StateCapitalistBoard.set_bank (s : StateCapitalistBoard) :
    Color → Bank → StateCapitalistBoard
  | .white, bank => { s with white_bank := bank }
  | .black, bank => { s with black_bank := bank }

/-- `StateCapitalistBoard::perform_census_for_color` (src/src/economy/mod.rs). -/
def StateCapitalistBoard.perform_census_for_color (s : StateCapitalistBoard)
    (color : Color) : StateCapitalistBoard :=
  s.set_bank color ((s.get_bank color).perform_census s.board)

/-- `copy.board.set_turn(..)` on the compound-move probe copy. -/
def StateCapitalistBoard.set_board_turn (s : StateCapitalistBoard)
    (color : Color) : StateCapitalistBoard :=
  { s with board := s.board.set_turn color }

mutual

/-- `StateCapitalistBoard::is_legal_move` (src/src/economy/mod.rs). The
mutual recursion with `apply_without_census` revisits a move of the same
size, so the embedding is fuelled; every wrapper below passes more fuel
than the recursion can consume, and the zero-fuel row is unreachable. -/
def StateCapitalistBoard.is_legal_move_fuel :
    Nat → StateCapitalistBoard → Move → Bool
  | 0, _, _ => false
  | _ + 1, s, .purchase piece dst =>
    if s.board.has_piece_on dst then false
    else if !(dst.get_sector.is_home_for s.whose_turn) then false
    else
      (s.get_bank s.whose_turn).can_afford (.purchase piece dst)
        && s.board.is_legal_move (.purchase piece dst)
  | _ + 1, s, .pass => (s.get_bank s.whose_turn).can_afford .pass
  | fuel + 1, s, .many ms =>
    StateCapitalistBoard.is_legal_many_fuel fuel s.whose_turn s ms
  | _ + 1, s, m => s.board.is_legal_move m

/-- The `Many` loop of `StateCapitalistBoard::is_legal_move`: reset the
probe copy's turn, check legality, reset again, apply without census.
The source `unwrap`s that application (panicking on failure), embedded
as an illegal sequence. -/
def StateCapitalistBoard.is_legal_many_fuel :
    Nat → Color → StateCapitalistBoard → MoveList → Bool
  | 0, _, _, _ => false
  | _ + 1, _, _, .nil => true
  | fuel + 1, turn, copy, .cons m ms =>
    let copy := copy.set_board_turn turn
    if !(StateCapitalistBoard.is_legal_move_fuel fuel copy m) then false
    else
      let copy := copy.set_board_turn turn
      match StateCapitalistBoard.apply_without_census_fuel fuel copy m with
      | (.ok, copy2) => StateCapitalistBoard.is_legal_many_fuel fuel turn copy2 ms
      | (.err, _) => false

/-- `StateCapitalistBoard::apply_without_census` (src/src/economy/mod.rs). -/
def StateCapitalistBoard.apply_without_census_fuel :
    Nat → StateCapitalistBoard → Move → RRes × StateCapitalistBoard
  | 0, s, _ => (.err, s)
  | fuel + 1, s, player_move =>
    if !(StateCapitalistBoard.is_legal_move_fuel fuel s player_move) then (.err, s)
    else
      let whose_turn := s.whose_turn
      match (s.get_bank whose_turn).purchase player_move with
      | (.err, bank) => (.err, s.set_bank whose_turn bank)
      | (.ok, bank) =>
        let s := s.set_bank whose_turn bank
        match s.board.apply player_move with
        | (.err, board) => (.err, { s with board := board })
        | (.ok, board) => (.ok, { s with board := board })

end

mutual

/-- Structural size of a move, used to compute sufficient fuel. -/
def Move.size_n : Move → Nat
  | .many ms => ms.size_n + 1
  | _ => 1

/-- Structural size of a move list. -/
def MoveList.size_n : MoveList → Nat
  | .nil => 1
  | .cons m ms => m.size_n + ms.size_n + 1

end

/-- Fuel that the `is_legal_move` recursion can never exhaust: each step
descends into a structurally smaller move or list. -/
def Move.enough_fuel (m : Move) : Nat := 2 * m.size_n + 2

/-- `StateCapitalistBoard::is_legal_move` with sufficient fuel. -/
def StateCapitalistBoard.is_legal_move (s : StateCapitalistBoard) (m : Move) : Bool :=
  StateCapitalistBoard.is_legal_move_fuel m.enough_fuel s m

/-- `StateCapitalistBoard::apply` (src/src/economy/mod.rs): gate on
legality, charge the bank, apply to the board, take the opponent census.
A bank or board failure surfaces after the earlier mutations, as in the
source. -/
def StateCapitalistBoard.apply (s : StateCapitalistBoard) (player_move : Move) :
    RRes × StateCapitalistBoard :=
  if !(s.is_legal_move player_move) then (.err, s)
  else
    let whose_turn := s.whose_turn
    match (s.get_bank whose_turn).purchase player_move with
    | (.err, bank) => (.err, s.set_bank whose_turn bank)
    | (.ok, bank) =>
      let s := s.set_bank whose_turn bank
      match s.board.apply player_move with
      | (.err, board) => (.err, { s with board := board })
      | (.ok, board) =>
        let s := { s with board := board }
        (.ok, s.perform_census_for_color whose_turn.enemy)

/-- `StateCapitalistBoard::legal_moves` (src/src/economy/mod.rs):
purchases first, then board moves (the debug asserts are elided). -/
def StateCapitalistBoard.legal_moves (s : StateCapitalistBoard) : List Move :=
  Move.legal_purchases s.board (s.get_bank s.whose_turn) ++ Move.legal_moves s.board

/-- The `f64` scores flowing through `Engine::minimax`
(src/src/engine/mod.rs): finite evaluations and the infinities produced
by `f64::NEG_INFINITY` and negation. `NaN` never arises. -/
inductive Score where
  | negInf
  | val (v : Int)
  | posInf
  deriving DecidableEq, Repr

/-- `f64` negation on the scores above. -/
def Score.neg : Score → Score
  | .negInf => .posInf
  | .val v => .val (-v)
  | .posInf => .negInf

/-- `partial_cmp` on the scores above (total: no `NaN`). -/
def Score.cmp : Score → Score → Ordering
  | .negInf, .negInf => .eq
  | .negInf, _ => .lt
  | .posInf, .posInf => .eq
  | .posInf, _ => .gt
  | .val _, .negInf => .gt
  | .val _, .posInf => .lt
  | .val a, .val b => if a < b then .lt else if b < a then .gt else .eq

/-- `Iterator::max_by` (Rust std): fold that keeps the later element
unless it compares strictly less, so ties go to the last occurrence. -/
def max_by (cmp : α → α → Ordering) : List α → Option α
  | [] => none
  | x :: xs => some (xs.foldl (fun acc y => if cmp y acc = .lt then acc else y) x)

/-- The parallel map body of `Engine::minimax` (src/src/engine/mod.rs):
score every legal move by applying it to a clone and recursing through
`step`; a failed application scores `NEG_INFINITY`. `par_iter + collect`
preserves the generation order, so this is an ordered list. -/
def minimax_children (step : StateCapitalistBoard → Option Move → Score × Move)
    (board : StateCapitalistBoard) (om : Option Move) : List (Score × Move) :=
  board.legal_moves.map (fun legal_move =>
    match board.apply legal_move with
    | (.err, _) => (Score.negInf, legal_move)
    | (.ok, board_copy) =>
      ((step board_copy (some (om.getD legal_move))).1.neg, legal_move))

/-- `Engine::minimax` (src/src/engine/mod.rs), parameterized by the
engine's `evaluate`. At depth 0 the source unwraps `original_move`
(panicking when the search was started at depth 0); the embedding
returns `pass` there. -/
def Engine.minimax (eval : StateCapitalistBoard → Color → Score) :
    Nat → StateCapitalistBoard → Color → Option Move → Score × Move
  | 0, board, color, om => (eval board color, om.getD Move.pass)
  | depth + 1, board, color, om =>
    let all_scores_and_moves :=
      minimax_children (fun bc om2 => Engine.minimax eval depth bc color om2) board om
    if all_scores_and_moves.isEmpty then (Score.negInf, Move.pass)
    else
      (max_by (fun p q => Score.cmp p.1 q.1) all_scores_and_moves).getD
        (Score.negInf, Move.pass)

/-- A tile as the `u8` asserts of `Rank`/`File` keep it: both coordinates
in `0..=7`. -/
def Tile.wf (t : Tile) : Bool := t.rank.val < 8 && t.file.val < 8

/-- The twelve masks as a list, in the scan order of `sanity_check`. -/
def Board.masks_list (b : Board) : List Nat :=
  [b.white_pawns, b.white_knights, b.white_bishops, b.white_rooks, b.white_queens,
    b.white_king, b.black_pawns, b.black_knights, b.black_bishops, b.black_rooks,
    b.black_queens, b.black_king]

/-- The mask-overlap section of `Board::sanity_check` (src/src/board.rs
lines 189-244): accumulate the masks into `bits` and fail as soon as the
next mask intersects it. (The rest of `sanity_check` validates castling
rights and the en-passant square and is not modelled here.) -/
def Board.masks_overlap_free (b : Board) : Bool :=
  let bits := b.white_pawns
  if bits &&& b.white_knights ≠ 0 then false else
  let bits := bits ||| b.white_knights
  if bits &&& b.white_bishops ≠ 0 then false else
  let bits := bits ||| b.white_bishops
  if bits &&& b.white_rooks ≠ 0 then false else
  let bits := bits ||| b.white_rooks
  if bits &&& b.white_queens ≠ 0 then false else
  let bits := bits ||| b.white_queens
  if bits &&& b.white_king ≠ 0 then false else
  let bits := bits ||| b.white_king
  if bits &&& b.black_pawns ≠ 0 then false else
  let bits := bits ||| b.black_pawns
  if bits &&& b.black_knights ≠ 0 then false else
  let bits := bits ||| b.black_knights
  if bits &&& b.black_bishops ≠ 0 then false else
  let bits := bits ||| b.black_bishops
  if bits &&& b.black_rooks ≠ 0 then false else
  let bits := bits ||| b.black_rooks
  if bits &&& b.black_queens ≠ 0 then false else
  let bits := bits ||| b.black_queens
  if bits &&& b.black_king ≠ 0 then false else
  true

/-- The `u64` typing of the masks plus the tile bounds of the en-passant
field, which the Rust types guarantee for every reachable `Board`. -/
def Board.wf (b : Board) : Bool :=
  b.masks_list.all (fun m => m < 2 ^ 64)
    && (match b.en_passant with
        | some t => t.wf
        | none => true)

mutual

/-- The tile bounds the Rust `Tile` type guarantees, for every tile
stored in a move. -/
def Move.wf : Move → Bool
  | .fromTo frm dst _ => frm.wf && dst.wf
  | .pieceTo _ dst _ => dst.wf
  | .purchase _ dst => dst.wf
  | .castling _ => true
  | .resign => true
  | .pass => true
  | .many ms => ms.wf

/-- Tile bounds for every move of a list. -/
def MoveList.wf : MoveList → Bool
  | .nil => true
  | .cons m ms => m.wf && ms.wf

end

mutual

/-- No `promotion` field of the move is populated. -/
def Move.promotion_free : Move → Bool
  | .fromTo _ _ promotion => promotion = none
  | .pieceTo _ _ promotion => promotion = none
  | .purchase _ _ => true
  | .castling _ => true
  | .resign => true
  | .pass => true
  | .many ms => ms.promotion_free

/-- No `promotion` field anywhere in the list. -/
def MoveList.promotion_free : MoveList → Bool
  | .nil => true
  | .cons m ms => m.promotion_free && ms.promotion_free

end

/-- Pointwise implication of castling-rights flags: every flag set in `a`
is also set in `b`. -/
def CastlingRights.cr_imp (a b : CastlingRights) : Bool :=
  (!a.white_king_side || b.white_king_side)
    && (!a.white_queen_side || b.white_queen_side)
    && (!a.black_king_side || b.black_king_side)
    && (!a.black_queen_side || b.black_queen_side)

/-- The double-pawn-push test of `detect_possible_en_passant`
(src/src/board.rs), evaluated against a fixed board. -/
def Board.is_double_pawn_push (b : Board) (frm dst : Tile) : Bool :=
  match b.get_piece frm with
  | some piece =>
    piece.get_type = PieceType.pawn
      && (frm.get_rank = Rank.PAWN_STARTER_WHITE || frm.get_rank = Rank.PAWN_STARTER_BLACK)
      && (dst.get_rank = (⟨3⟩ : Rank) || dst.get_rank = (⟨4⟩ : Rank))
  | none => false

/-- Sequential application of a prefix of sub-moves exactly as the `Many`
arm of `Board::apply` runs them: the saved turn is restored before each
one; `none` when one fails. -/
def Board.run_prefix (turn : Color) (b : Board) : List Move → Option Board
  | [] => some b
  | m :: ms =>
    match (b.set_turn turn).apply m with
    | (.ok, b2) => Board.run_prefix turn b2 ms
    | (.err, _) => none

/- Named tiles used by the concrete witnesses and counterexamples. -/
def tA1 : Tile := ⟨⟨0⟩, ⟨0⟩⟩
def tA2 : Tile := ⟨⟨1⟩, ⟨0⟩⟩
def tB1 : Tile := ⟨⟨0⟩, ⟨1⟩⟩
def tB2 : Tile := ⟨⟨1⟩, ⟨1⟩⟩
def tE1 : Tile := ⟨⟨0⟩, ⟨4⟩⟩
def tE2 : Tile := ⟨⟨1⟩, ⟨4⟩⟩
def tE3 : Tile := ⟨⟨2⟩, ⟨4⟩⟩
def tE4 : Tile := ⟨⟨3⟩, ⟨4⟩⟩
def tB3 : Tile := ⟨⟨2⟩, ⟨1⟩⟩
def tD2 : Tile := ⟨⟨1⟩, ⟨3⟩⟩
def tD5 : Tile := ⟨⟨4⟩, ⟨3⟩⟩
def tD6 : Tile := ⟨⟨5⟩, ⟨3⟩⟩
def tE8 : Tile := ⟨⟨7⟩, ⟨4⟩⟩
def tG2 : Tile := ⟨⟨1⟩, ⟨6⟩⟩
def tH1 : Tile := ⟨⟨0⟩, ⟨7⟩⟩
def tH8 : Tile := ⟨⟨7⟩, ⟨7⟩⟩

/-- A board with one white pawn on e2 (the `pawn_move_forward_two` test
setup of src/tests/board.rs, without the black pawn). -/
def bPawnE2 : Board := { Board.empty with white_pawns := tE2.to_bit }

/-- The checkmate scenario of the spec: white king on a1, black rooks on
h1 and g2. -/
def bMateEx : Board :=
  { Board.empty with
    white_king := tA1.to_bit
    black_rooks := tH1.to_bit ||| tG2.to_bit }

/-- A reported checkmate with an escape outside the candidate list:
white king a1 and knight d2 against black queen b2 and king b3, white
to move. The queen checks a1 and no candidate move of the generator
escapes, yet the sideways knight move d2-b2 passes
`is_legal_piece_move` because `is_knight_move_away` uses `is_within`
bounds rather than exact L-shape distances. -/
def bC3cex : Board :=
  { Board.empty with
    white_king := tA1.to_bit
    white_knights := tD2.to_bit
    black_queens := tB2.to_bit
    black_king := tB3.to_bit }

/-- White ready to castle king-side while a black en-passant window on d6
is open: king e1, rook h1, kingside rights, black king e8 and the black
pawn on d5 that just double-stepped. -/
def cexC4Board : Board :=
  { Board.empty with
    white_king := tE1.to_bit
    white_rooks := tH1.to_bit
    black_king := tE8.to_bit
    black_pawns := tD5.to_bit
    en_passant := some tD6
    castling_rights := ⟨true, false, false, false⟩ }

/-- A market whose pieces are unaffordable at balance zero and whose
moves are free, isolating the search's tie-breaking. -/
def mkC6 : Market :=
  ⟨⟨1000⟩, ⟨1000⟩, ⟨1000⟩, ⟨1000⟩, ⟨1000⟩, ⟨1000⟩, ⟨0⟩, ⟨0⟩, ⟨0⟩, ⟨0⟩, ⟨0⟩, 2⟩

/-- A two-kings board: white king a1 (three legal moves), black king h8. -/
def bKingsC6 : Board :=
  { Board.empty with
    white_king := tA1.to_bit
    black_king := tH8.to_bit }

/-- The `StateCapitalistBoard` for the tie-breaking counterexample. -/
def scbC6 : StateCapitalistBoard :=
  ⟨mkC6, ⟨.white, ⟨0⟩, mkC6, List.replicate 16 false⟩,
    ⟨.black, ⟨0⟩, mkC6, List.replicate 16 false⟩, bKingsC6⟩

/-- An engine evaluation that scores every position 0, making all of
`scbC6`'s branches tie. -/
def evalZeroC6 : StateCapitalistBoard → Color → Score := fun _ _ => Score.val 0

/-- The board that `bPawnE2.apply` of the double push e2-e4 produces:
the pawn on e4, the en-passant window on e3, black to move. -/
def bPawnE4 : Board :=
  { Board.empty with
    white_pawns := tE4.to_bit
    en_passant := some tE3
    current_turn := Color.black }

/-- Two masks share no set bit. -/
def disjBits (x y : Nat) : Prop := x &&& y = 0

/-- The accumulator loop of the mask-overlap section of
`Board::sanity_check`, over a list of masks. -/
def overlap_free_list (bits : Nat) : List Nat → Bool
  | [] => true
  | m :: rest => if bits &&& m ≠ 0 then false else overlap_free_list (bits ||| m) rest

/-- The invariant carried through every board mutation: the twelve masks
are pairwise disjoint, each fits in a `u64`, and the en-passant tile (if
set) is in range — the latter two are guaranteed by the Rust types. -/
def BInv (b : Board) : Prop :=
  List.Pairwise disjBits b.masks_list
    ∧ (∀ x ∈ b.masks_list, x < 2 ^ 64)
    ∧ (∀ e, b.en_passant = some e → e.wf = true)

/-! ## Theorems -/

/-- `Board::spawn` never changes whose turn it is. -/
theorem Board.spawn_current_turn (b : Board) (p : PieceType) (t : Tile) :
    (b.spawn p t).current_turn = b.current_turn := by
  cases h : b.current_turn <;> cases p <;>
    simp [Board.spawn, Board.remove_piece, h]

/-- C10: `Board::apply(Move::Pass)` always succeeds; its only effect is
flipping the side to move (masks, en-passant target, castling rights and
winner are all untouched); yet `Board::is_legal_move(&Move::Pass)` is
false on every board. -/
theorem c10_pass_succeeds_flips_turn_only (b : Board) :
    b.apply Move.pass = (RRes.ok, { b with current_turn := b.current_turn.enemy })
      ∧ b.is_legal_move Move.pass = false :=
  ⟨rfl, rfl⟩

/-- C5 (counterexample): applying a purchase directly to the empty core
board does not fail — it succeeds and changes the board. -/
theorem c5_counterexample :
    (Board.empty.apply (Move.purchase PieceType.queen tE8)).1 = RRes.ok
      ∧ (Board.empty.apply (Move.purchase PieceType.queen tE8)).2 ≠ Board.empty := by
  decide

/-- C5 (amended): `Board::apply(Move::Purchase { piece, to })` always
succeeds: it spawns the piece for the side to move on the target tile
(clearing any occupant) and flips the turn; the purchase gate lives in
`Board::is_legal_move`, which accepts a purchase exactly when the target
is empty and the mover is not in check. -/
theorem c5_amended_purchase_spawns (b : Board) (piece : PieceType) (dst : Tile) :
    b.apply (Move.purchase piece dst)
        = (RRes.ok, { b.spawn piece dst with current_turn := b.current_turn.enemy })
      ∧ b.is_legal_move (Move.purchase piece dst)
        = (!b.has_piece_on dst && !b.is_in_check b.whose_turn) := by
  constructor
  · show (RRes.ok, { b.spawn piece dst with
      current_turn := (b.spawn piece dst).current_turn.enemy }) = _
    rw [Board.spawn_current_turn]
  · rfl


theorem Board.pmft_cases (b : Board) (frm dst : Tile) (promotion : Option PieceType) :
    (b.perform_move_from_to frm dst promotion).1 = RRes.ok
      ∨ b.perform_move_from_to frm dst promotion = (RRes.err, b) := by
  unfold Board.perform_move_from_to
  split
  · right; rfl
  · split
    · right; rfl
    · left
      dsimp only
      split
      · rfl
      · split
        · rfl
        · split <;> rfl

theorem Board.pmft_err_frame (b : Board) (frm dst : Tile) (promotion : Option PieceType)
    (h : (b.perform_move_from_to frm dst promotion).1 = RRes.err) :
    (b.perform_move_from_to frm dst promotion).2 = b := by
  rcases Board.pmft_cases b frm dst promotion with hc | hc
  · rw [hc] at h
    exact RRes.noConfusion h
  · rw [hc]

/-- C1: for every board and every non-compound move (`FromTo`, `PieceTo`
or `Castling`), when `Board::apply` returns an error the board it
returns is exactly the pre-call board — all twelve masks, the en-passant
target, the castling rights, the side to move and the winner are
unchanged (structural equality of the whole record). -/
theorem c1_error_leaves_board_unchanged (b : Board) (frm dst : Tile)
    (promotion : Option PieceType) (piece : PieceType) (side : CastlingSide) :
    ((b.apply (Move.fromTo frm dst promotion)).1 = RRes.err →
      (b.apply (Move.fromTo frm dst promotion)).2 = b)
      ∧ ((b.apply (Move.pieceTo piece dst promotion)).1 = RRes.err →
        (b.apply (Move.pieceTo piece dst promotion)).2 = b)
      ∧ ((b.apply (Move.castling side)).1 = RRes.err →
        (b.apply (Move.castling side)).2 = b) := by
  refine ⟨?_, ?_, ?_⟩
  · exact Board.pmft_err_frame b frm dst promotion
  · intro h
    simp only [Board.apply] at h ⊢
    match hm : b.get_eligible_piece piece dst with
    | some frm2 =>
      rw [hm] at h
      exact Board.pmft_err_frame b frm2 dst promotion h
    | none => rfl
  · exact Board.pmft_err_frame b _ _ none

theorem c1_witness :
    (Board.empty.apply (Move.fromTo tE2 tE4 none)).1 = RRes.err
      ∧ (Board.empty.apply (Move.fromTo tE2 tE4 none)).2 = Board.empty :=
  ⟨by decide, (c1_error_leaves_board_unchanged Board.empty tE2 tE4 none PieceType.queen
    CastlingSide.king).1 (by decide)⟩

theorem Board.apply_many_run_prefix (ms : List Move) (turn : Color) (b s : Board) :
    (Board.run_prefix turn b ms = some s →
      Board.apply_many turn b (MoveList.ofList ms)
        = (RRes.ok, { s with current_turn := turn.enemy }))
      ∧ (∀ (m : Move) (ms2 : List Move) (s' : Board),
        Board.run_prefix turn b ms = some s →
        (s.set_turn turn).apply m = (RRes.err, s') →
        Board.apply_many turn b (MoveList.ofList (ms ++ m :: ms2)) = (RRes.err, s')) := by
  induction ms generalizing b with
  | nil =>
    refine ⟨fun h => ?_, fun m ms2 s' h hm => ?_⟩
    · simp only [Board.run_prefix, Option.some.injEq] at h
      subst h
      rfl
    · simp only [Board.run_prefix, Option.some.injEq] at h
      subst h
      simp only [List.nil_append, MoveList.ofList]
      simp only [Board.apply_many]
      simp only [Board.set_turn] at hm
      rw [hm]
  | cons hd tl ih =>
    refine ⟨fun h => ?_, fun m ms2 s' h hm => ?_⟩
    · simp only [Board.run_prefix, Board.set_turn] at h
      show Board.apply_many turn b (.cons hd (MoveList.ofList tl)) = _
      simp only [Board.apply_many]
      rcases hap : ({ b with current_turn := turn } : Board).apply hd with ⟨r, b2⟩
      rw [hap] at h
      cases r with
      | ok => exact (ih b2).1 h
      | err => exact Option.noConfusion h
    · simp only [Board.run_prefix, Board.set_turn] at h
      show Board.apply_many turn b (MoveList.ofList ((hd :: tl) ++ m :: ms2)) = _
      simp only [List.cons_append, MoveList.ofList]
      simp only [Board.apply_many]
      rcases hap : ({ b with current_turn := turn } : Board).apply hd with ⟨r, b2⟩
      rw [hap] at h
      cases r with
      | ok => exact (ih b2).2 m ms2 s' h hm
      | err => exact Option.noConfusion h

/-- C2: `Board::apply` on a non-empty `Move::Many(ms)` runs the
sub-moves in order, restoring the saved side to move before each one:
when every sub-move succeeds the result is the sequentially accumulated
board with the turn flipped once at the end, and when a sub-move fails
the whole call returns that error together with the partially mutated
board of the already-applied prefix — no rollback. -/
theorem c2_many_order_and_no_rollback (b : Board) :
    (∀ (ms : List Move) (s : Board), ms ≠ [] →
      Board.run_prefix b.current_turn b ms = some s →
      b.apply (Move.many (MoveList.ofList ms))
        = (RRes.ok, { s with current_turn := b.current_turn.enemy }))
      ∧ (∀ (ms1 : List Move) (m : Move) (ms2 : List Move) (s s' : Board),
        Board.run_prefix b.current_turn b ms1 = some s →
        (s.set_turn b.current_turn).apply m = (RRes.err, s') →
        b.apply (Move.many (MoveList.ofList (ms1 ++ m :: ms2))) = (RRes.err, s')) := by
  constructor
  · intro ms s hne h
    match ms with
    | m0 :: tl =>
      show Board.apply_many b.current_turn b (MoveList.ofList (m0 :: tl)) = _
      exact (Board.apply_many_run_prefix (m0 :: tl) b.current_turn b s).1 h
  · intro ms1 m ms2 s s' h hm
    match ms1 with
    | [] =>
      show Board.apply_many b.current_turn b (MoveList.ofList ([] ++ m :: ms2)) = _
      exact (Board.apply_many_run_prefix [] b.current_turn b s).2 m ms2 s' h hm
    | m0 :: tl =>
      show Board.apply_many b.current_turn b (MoveList.ofList ((m0 :: tl) ++ m :: ms2)) = _
      exact (Board.apply_many_run_prefix (m0 :: tl) b.current_turn b s).2 m ms2 s' h hm

theorem c2_witness :
    Board.run_prefix bPawnE2.current_turn bPawnE2 [Move.fromTo tE2 tE4 none] = some bPawnE4
      ∧ (bPawnE4.set_turn bPawnE2.current_turn).apply (Move.fromTo tE2 tE4 none)
        = (RRes.err, bPawnE4.set_turn Color.white)
      ∧ bPawnE2.apply (Move.many (MoveList.ofList
          [Move.fromTo tE2 tE4 none, Move.fromTo tE2 tE4 none]))
        = (RRes.err, bPawnE4.set_turn Color.white)
      ∧ bPawnE4.set_turn Color.white ≠ bPawnE2 := by
  refine ⟨by decide, by decide, ?_, by decide⟩
  exact (c2_many_order_and_no_rollback bPawnE2).2 [Move.fromTo tE2 tE4 none]
    (Move.fromTo tE2 tE4 none) [] bPawnE4 (bPawnE4.set_turn Color.white)
    (by decide) (by decide)

theorem foldl_id_of {α β : Type} (f : β → α → β) :
    ∀ (l : List α), (∀ a ∈ l, ∀ x, f x a = x) → ∀ acc, l.foldl f acc = acc
  | [], _, acc => rfl
  | a :: l, h, acc => by
    rw [List.foldl_cons, h a (by simp), foldl_id_of f l (fun a2 ha x => h a2 (by simp [ha]) x) acc]

theorem Board.can_castle_false_of_check (b : Board) (king rook : Tile)
    (h : b.is_in_check king.get_player_side = true) : b.can_castle king rook = false := by
  unfold Board.can_castle
  split
  · rfl
  · simp [h]

theorem Tile.king_start_player_side (col : Color) :
    (Tile.king_start_position col).get_player_side = col := by
  cases col <;> rfl

set_option maxRecDepth 40000 in
/-- C3 (counterexample): on `bC3cex` the code reports white checkmated,
yet white still has a legal move: `is_legal_piece_move` accepts the
sideways knight "capture" d2-b2 of the checking queen — a displacement
`is_knight_move_away`'s `is_within` bounds admit but the candidate
generator never proposes — and `Board::apply` performs it. So
`is_in_checkmate` does not imply that no legal move exists. -/
theorem c3_counterexample :
    bC3cex.is_in_checkmate Color.white = true
      ∧ bC3cex.is_legal_piece_move tD2 tB2 = true
      ∧ (bC3cex.apply (Move.fromTo tD2 tB2 none)).1 = RRes.ok := by
  refine ⟨by decide, by decide, by decide⟩

/-- C3 (amended): `Board::is_in_checkmate(c) = true` implies
`is_in_check(c)`, that no piece of color `c` has a legal move among the
candidate destinations `Tile::get_moves` proposes, and — when `c` is
the side to move — that `Move::legal_moves` returns the empty list.
"Checkmate" does NOT imply that no legal move at all exists for `c`:
`is_legal_piece_move` can accept destinations outside the candidate
list (see the counterexample). -/
theorem c3_checkmate_implies (b : Board) (c : Color) (h : b.is_in_checkmate c = true) :
    b.is_in_check c = true
      ∧ (∀ tile ∈ Tile.all, ∀ piece, b.get_piece tile = some piece → piece.get_color = c →
        ∀ dst ∈ tile.get_moves piece, b.is_legal_piece_move tile dst = false)
      ∧ (c = b.current_turn → Move.legal_moves b = []) := by
  have hch : b.is_in_check c = true := by
    by_cases hc : b.is_in_check c = true
    · exact hc
    · unfold Board.is_in_checkmate at h
      rw [Bool.not_eq_true] at hc
      rw [hc] at h
      simp at h
  have hany : (Tile.all.any fun tile =>
      match b.get_piece tile with
      | some piece =>
        piece.get_color = c
          && (tile.get_moves piece).any (fun dst => b.is_legal_piece_move tile dst)
      | none => false) = false := by
    unfold Board.is_in_checkmate at h
    rw [hch] at h
    simpa using h
  have hnomove : ∀ tile ∈ Tile.all, ∀ piece, b.get_piece tile = some piece →
      piece.get_color = c →
      ∀ dst ∈ tile.get_moves piece, b.is_legal_piece_move tile dst = false := by
    intro tile htile piece hpt hcol dst hdst
    rw [List.any_eq_false] at hany
    have h2 := hany tile htile
    rw [hpt] at h2
    simp only [hcol, decide_eq_true_eq, Bool.not_eq_true] at h2
    simp only [Bool.and_eq_false_iff] at h2
    rcases h2 with h2 | h2
    · simp at h2
    · rw [List.any_eq_false] at h2
      exact eq_false_of_ne_true (h2 dst hdst)
  refine ⟨hch, hnomove, ?_⟩
  intro hcTurn
  subst hcTurn
  simp only [Move.legal_moves, Board.whose_turn]
  rw [foldl_id_of _ Tile.all ?step []]
  case step =>
    intro tile htile acc
    match hpt : b.get_piece tile with
    | none => rfl
    | some piece =>
      by_cases hcol : piece.get_color = b.current_turn
      · simp only [hcol, if_pos rfl]
        refine foldl_id_of _ (tile.get_moves piece) ?_ acc
        intro dst hdst x
        rw [hnomove tile htile piece hpt hcol dst hdst]
        rfl
      · simp [hcol]
  have hcc1 : b.can_castle (Tile.king_start_position b.current_turn)
      (Tile.rook_start_position b.current_turn CastlingSide.king) = false := by
    apply Board.can_castle_false_of_check
    rw [Tile.king_start_player_side]
    exact hch
  have hcc2 : b.can_castle (Tile.king_start_position b.current_turn)
      (Tile.rook_start_position b.current_turn CastlingSide.queen) = false := by
    apply Board.can_castle_false_of_check
    rw [Tile.king_start_player_side]
    exact hch
  rw [hcc1, hcc2]
  simp

theorem c3_witness :
    bMateEx.is_in_checkmate Color.white = true
      ∧ bMateEx.is_in_check Color.white = true
      ∧ Move.legal_moves bMateEx = [] :=
  ⟨by decide, (c3_checkmate_implies bMateEx Color.white (by decide)).1,
    (c3_checkmate_implies bMateEx Color.white (by decide)).2.2 (by decide)⟩

theorem MoveList.ofList_promotion_free (ms : List Move)
    (h : ∀ m ∈ ms, m.promotion_free = true) :
    (MoveList.ofList ms).promotion_free = true := by
  induction ms with
  | nil => rfl
  | cons hd tl ih =>
    simp only [MoveList.ofList, MoveList.promotion_free, Bool.and_eq_true]
    exact ⟨h hd (by simp), ih (fun m hm => h m (by simp [hm]))⟩

theorem promotion_free_append (acc : List Move) (nm : Move)
    (hacc : ∀ m ∈ acc, m.promotion_free = true) (hnm : nm.promotion_free = true) :
    ∀ m ∈ acc ++ [nm], m.promotion_free = true := by
  intro m hm
  rcases List.mem_append.1 hm with hm | hm
  · exact hacc m hm
  · simp only [List.mem_singleton] at hm
    subst hm
    exact hnm

theorem Move.from_str_go_promotion_free (ws : List (List Char)) :
    ∀ (acc : List Move) (mv : Move), (∀ m ∈ acc, m.promotion_free = true) →
    Move.from_str_go acc ws = some mv → mv.promotion_free = true := by
  induction ws with
  | nil =>
    intro acc mv hacc h
    match acc with
    | [m0] =>
      simp only [Move.from_str_go, Option.some.injEq] at h
      subst h
      exact hacc m0 (by simp)
    | [] =>
      simp only [Move.from_str_go, Option.some.injEq] at h
      subst h
      rfl
    | m1 :: m2 :: rest =>
      simp only [Move.from_str_go, Option.some.injEq] at h
      subst h
      exact MoveList.ofList_promotion_free _ hacc
  | cons w ws ih =>
    intro acc mv hacc h
    simp only [Move.from_str_go] at h
    repeat' split at h
    all_goals first
      | exact Option.noConfusion h
      | (injection h with h2; subst h2; rfl)
      | (refine ih _ mv (fun m hm => ?_) h
         rcases List.mem_append.1 hm with hm | hm
         · exact hacc m hm
         · simp only [List.mem_singleton] at hm
           subst hm
           rfl)

/-- C9 (amended): every move `Move::from_str` produces carries no
promotion anywhere: the parser never populates the `promotion` field. -/
theorem c9_amended_no_promotion_parsed (s : String) (mv : Move)
    (h : Move.from_str s = some mv) : mv.promotion_free = true :=
  Move.from_str_go_promotion_free _ [] mv (by intro m hm; cases hm) h

/-- C9 (counterexample): the 5-character token of a simple move with a
trailing promotion letter is rejected outright. -/
theorem c9_counterexample : Move.from_str ("e7e8Q") = none := by decide

/-- C9 (witness): the plain 4-character form of the same move parses. -/
theorem c9_witness :
    Move.from_str ("e7e8") = some (Move.fromTo ⟨⟨6⟩, ⟨4⟩⟩ ⟨⟨7⟩, ⟨4⟩⟩ none)
      ∧ (Move.fromTo (⟨⟨6⟩, ⟨4⟩⟩ : Tile) (⟨⟨7⟩, ⟨4⟩⟩ : Tile) none).promotion_free = true :=
  ⟨by decide, c9_amended_no_promotion_parsed ("e7e8") _ (by decide)⟩

theorem Score.cmp_lt_iff_gt (a b : Score) :
    Score.cmp a b = Ordering.lt ↔ Score.cmp b a = Ordering.gt := by
  cases a <;> cases b <;> simp [Score.cmp]
  case val.val x y => omega

theorem foldl_max_by_keep {α : Type} (c : α → α → Ordering) :
    ∀ (l : List α) (acc : α), (∀ y ∈ l, c y acc = Ordering.lt) →
    l.foldl (fun acc y => if c y acc = Ordering.lt then acc else y) acc = acc
  | [], _, _ => rfl
  | y :: t, acc, h => by
    rw [List.foldl_cons, if_pos (h y (by simp))]
    exact foldl_max_by_keep c t acc (fun z hz => h z (by simp [hz]))

theorem foldl_max_by_not_gt {α : Type} (c : α → α → Ordering) (x : α) :
    ∀ (l : List α) (acc : α), c acc x ≠ Ordering.gt → (∀ y ∈ l, c y x ≠ Ordering.gt) →
    c (l.foldl (fun acc y => if c y acc = Ordering.lt then acc else y) acc) x ≠ Ordering.gt
  | [], acc, hacc, _ => hacc
  | y :: t, acc, hacc, h => by
    rw [List.foldl_cons]
    by_cases hc : c y acc = Ordering.lt
    · rw [if_pos hc]
      exact foldl_max_by_not_gt c x t acc hacc (fun z hz => h z (by simp [hz]))
    · rw [if_neg hc]
      exact foldl_max_by_not_gt c x t y (h y (by simp)) (fun z hz => h z (by simp [hz]))

theorem max_by_last_max {α : Type} (c : α → α → Ordering)
    (hswap : ∀ a b, c a b = Ordering.lt ↔ c b a = Ordering.gt)
    (x : α) (l1 l2 : List α)
    (h1 : ∀ y ∈ l1, c y x ≠ Ordering.gt) (h2 : ∀ y ∈ l2, c y x = Ordering.lt) :
    max_by c (l1 ++ x :: l2) = some x := by
  match l1 with
  | [] =>
    show some (List.foldl _ x l2) = some x
    rw [foldl_max_by_keep c l2 x h2]
  | h0 :: t =>
    show some (List.foldl _ h0 (t ++ x :: l2)) = some x
    rw [List.foldl_append, List.foldl_cons]
    have hA : c (List.foldl _ h0 t) x ≠ Ordering.gt :=
      foldl_max_by_not_gt c x t h0 (h1 h0 (by simp)) (fun z hz => h1 z (by simp [hz]))
    have hxA : ¬ c x (List.foldl (fun acc y => if c y acc = Ordering.lt then acc else y) h0 t)
        = Ordering.lt := fun hcon => hA ((hswap _ _).1 hcon)
    rw [if_neg hxA]
    rw [foldl_max_by_keep c l2 x h2]

/-- C6 (amended): in `Engine::minimax` at depth greater than 0, when the
scored children decompose as a prefix no better than `x`, the entry `x`,
and a suffix strictly worse than `x`, the pair returned is `x` itself:
Rust's `Iterator::max_by` keeps the LAST of equally maximal elements, so
a tie is resolved to the latest move in generation order, not the
earliest. -/
theorem c6_amended_tie_goes_to_last (eval : StateCapitalistBoard → Color → Score)
    (board : StateCapitalistBoard) (color : Color) (om : Option Move) (d : Nat)
    (l1 l2 : List (Score × Move)) (x : Score × Move)
    (hdec : minimax_children (fun bc om2 => Engine.minimax eval d bc color om2) board om
      = l1 ++ x :: l2)
    (h1 : ∀ y ∈ l1, Score.cmp y.1 x.1 ≠ Ordering.gt)
    (h2 : ∀ y ∈ l2, Score.cmp y.1 x.1 = Ordering.lt) :
    Engine.minimax eval (d + 1) board color om = x := by
  simp only [Engine.minimax]
  rw [hdec]
  have hne : (l1 ++ x :: l2).isEmpty = false := by cases l1 <;> rfl
  rw [hne]
  simp only [Bool.false_eq_true, if_false]
  rw [max_by_last_max (fun p q => Score.cmp p.1 q.1)
    (fun p q => Score.cmp_lt_iff_gt p.1 q.1) x l1 l2 h1 h2]
  rfl

set_option maxRecDepth 40000 in
/-- C6 (counterexample): with an all-zero evaluation every child of
`scbC6` ties, and `minimax` at depth 1 returns the LAST generated move
a1-b1, not the first generated move a1-b2 — refuting the spec's
\"earliest in generation order\". -/
theorem c6_counterexample :
    minimax_children (fun bc om2 => Engine.minimax evalZeroC6 0 bc Color.white om2) scbC6 none
      = [(Score.val 0, Move.fromTo tA1 tB2 none), (Score.val 0, Move.fromTo tA1 tA2 none),
        (Score.val 0, Move.fromTo tA1 tB1 none)]
      ∧ Engine.minimax evalZeroC6 1 scbC6 Color.white none
        = (Score.val 0, Move.fromTo tA1 tB1 none)
      ∧ Move.fromTo tA1 tB1 none ≠ Move.fromTo tA1 tB2 none := by
  refine ⟨by decide, by decide, by decide⟩

set_option maxRecDepth 40000 in
theorem c6_witness :
    Engine.minimax evalZeroC6 1 scbC6 Color.white none
      = (Score.val 0, Move.fromTo tA1 tB1 none) :=
  c6_amended_tie_goes_to_last evalZeroC6 scbC6 Color.white none 0
    [(Score.val 0, Move.fromTo tA1 tB2 none), (Score.val 0, Move.fromTo tA1 tA2 none)] []
    (Score.val 0, Move.fromTo tA1 tB1 none) (by decide) (by decide) (by decide)

theorem Board.icmc_set_turn (b : Board) (x : Color) (f d : Tile) :
    ({ b with current_turn := x } : Board).is_castling_move_check f d
      = b.is_castling_move_check f d := rfl

theorem Board.iepc_set_turn (b : Board) (x : Color) (f d : Tile) :
    ({ b with current_turn := x } : Board).is_en_passant_capture f d
      = b.is_en_passant_capture f d := rfl

theorem Board.ddcr_as_update (b : Board) (f d : Tile) :
    b.detect_disabled_castling_rights f d
      = { b with castling_rights := (b.detect_disabled_castling_rights f d).castling_rights } := by
  unfold Board.detect_disabled_castling_rights
  split
  · rfl
  · split
    · split <;> split <;> rfl
    · split
      · split <;> split <;> rfl
      · split
        · rfl
        · split <;> rfl

theorem Board.spawn_en_passant (b : Board) (p : PieceType) (t : Tile) :
    (b.spawn p t).en_passant = b.en_passant := by
  cases h : b.current_turn <;> cases p <;> simp [Board.spawn, Board.remove_piece, h]

theorem Board.perform_castling_en_passant (b : Board) (k r : Tile) :
    (b.perform_castling k r).en_passant = b.en_passant := by
  unfold Board.perform_castling
  split <;> rfl

theorem Board.capture_en_passant_none (b : Board) (f e : Tile)
    (h : b.en_passant = some e) : (b.capture_en_passant f).en_passant = none := by
  unfold Board.capture_en_passant
  rw [h]

theorem Board.iepc_some (b : Board) (f d : Tile)
    (h : b.is_en_passant_capture f d = true) : ∃ e, b.en_passant = some e := by
  unfold Board.is_en_passant_capture at h
  match he : b.en_passant with
  | some e => exact ⟨e, rfl⟩
  | none => rw [he] at h; exact Bool.noConfusion h

theorem and_compl64_and_bit (m nd nf : Nat) (hne : nf ≠ nd) (hnf : nf < 64) :
    (m &&& compl64 (1 <<< nd)) &&& (1 <<< nf) = m &&& (1 <<< nf) := by
  apply Nat.eq_of_testBit_eq
  intro i
  simp only [Nat.testBit_land, compl64, mask64, Nat.testBit_xor, Nat.one_shiftLeft]
  by_cases hi : i = nf
  · subst hi
    rw [Nat.testBit_two_pow_of_ne (Ne.symm hne), Nat.testBit_two_pow_sub_one]
    simp [hnf]
  · rw [Nat.testBit_two_pow_of_ne (fun hc => hi hc.symm)]
    simp

theorem Tile.to_bit_pos (t : Tile) : t.to_bit = 1 <<< (t.rank.val * 8 + t.file.val) := rfl

theorem Tile.pos_lt_of_wf (t : Tile) (h : t.wf = true) : t.rank.val * 8 + t.file.val < 64 := by
  simp only [Tile.wf, Bool.and_eq_true, decide_eq_true_eq] at h
  omega

theorem Board.get_piece_remove_ne (b : Board) (d f : Tile) (hf : f.wf = true)
    (hbit : f.to_bit ≠ d.to_bit) :
    (b.remove_piece d).get_piece f = b.get_piece f := by
  have hne : f.rank.val * 8 + f.file.val ≠ d.rank.val * 8 + d.file.val := by
    intro hc
    exact hbit (by rw [Tile.to_bit_pos, Tile.to_bit_pos, hc])
  have hrw : ∀ m : Nat, (m &&& compl64 d.to_bit) &&& f.to_bit = m &&& f.to_bit := by
    intro m
    rw [Tile.to_bit_pos, Tile.to_bit_pos]
    exact and_compl64_and_bit m _ _ hne (Tile.pos_lt_of_wf f hf)
  simp only [Board.get_piece, Board.remove_piece]
  simp only [hrw]

theorem Board.get_piece_bit_congr (b : Board) (f d : Tile) (h : f.to_bit = d.to_bit) :
    b.get_piece f = b.get_piece d := by
  simp only [Board.get_piece, h]

theorem Board.legal_noncastling_bit_ne (b : Board) (f d : Tile) (piece : Piece)
    (hpt : b.get_piece f = some piece)
    (hleg : b.is_legal_piece_move f d = true)
    (hnc : b.is_castling_move_check f d = false) : f.to_bit ≠ d.to_bit := by
  intro heq
  have hd : b.get_piece d = some piece := by
    rw [← Board.get_piece_bit_congr b f d heq, hpt]
  unfold Board.is_legal_piece_move at hleg
  rw [hpt, hd] at hleg
  simp only [if_pos rfl, hnc, Bool.false_and, if_neg] at hleg
  simp at hleg

theorem Board.get_piece_set_ep (b : Board) (e : Option Tile) (f : Tile) :
    ({ b with en_passant := e } : Board).get_piece f = b.get_piece f := rfl

theorem Board.detect_ep_result (b : Board) (f d : Tile) :
    (b.detect_possible_en_passant f d).en_passant
      = (if b.is_double_pawn_push f d then some (f.advance b.current_turn 1) else none) := by
  unfold Board.detect_possible_en_passant Board.is_double_pawn_push
  simp only [Board.get_piece_set_ep]
  match hp : b.get_piece f with
  | none => simp
  | some piece =>
    by_cases h1 : piece.get_type = PieceType.pawn
    · by_cases h2 : f.get_rank = Rank.PAWN_STARTER_WHITE ∨ f.get_rank = Rank.PAWN_STARTER_BLACK
      · by_cases h3 : d.get_rank = (⟨3⟩ : Rank) ∨ d.get_rank = (⟨4⟩ : Rank)
        · simp [h1, h2, h3]
        · simp [h1, h2, h3]
      · simp [h1, h2]
    · simp [h1]

theorem Board.dpp_congr (b b2 : Board) (f d : Tile)
    (h : b2.get_piece f = b.get_piece f) :
    b2.is_double_pawn_push f d = b.is_double_pawn_push f d := by
  unfold Board.is_double_pawn_push
  rw [h]

theorem Board.ivp_congr (b b2 : Board) (f d : Tile)
    (h : b2.get_piece f = b.get_piece f) :
    b2.is_valid_promotion f d = b.is_valid_promotion f d := by
  unfold Board.is_valid_promotion
  rw [h]

theorem Board.move_piece_en_passant (b : Board) (f d : Tile) :
    (b.move_piece f d).en_passant = b.en_passant := rfl

theorem Board.ddcr_en_passant (b : Board) (f d : Tile) :
    (b.detect_disabled_castling_rights f d).en_passant = b.en_passant := by
  rw [Board.ddcr_as_update]

theorem Board.ddcr_current_turn (b : Board) (f d : Tile) :
    (b.detect_disabled_castling_rights f d).current_turn = b.current_turn := by
  rw [Board.ddcr_as_update]

theorem Board.ddcr_get_piece (b : Board) (f d t : Tile) :
    (b.detect_disabled_castling_rights f d).get_piece t = b.get_piece t := by
  rw [Board.ddcr_as_update]
  rfl

theorem Board.iepc_ddcr (b : Board) (x : Color) (f d f2 d2 : Tile) :
    (Board.detect_disabled_castling_rights { b with current_turn := x } f d).is_en_passant_capture
        f2 d2
      = b.is_en_passant_capture f2 d2 := by
  rw [Board.ddcr_as_update]
  rfl

/-- C4 (amended): after a successful `perform_move_from_to` (the path of
`apply` for `FromTo`, `PieceTo` and `Castling` moves), the en-passant
target is: unchanged by a castling move; cleared by an en-passant
capture; unchanged (not cleared) by a promotion; the passed-over square
after a double pawn push; and cleared by every other move. -/
theorem c4_amended_en_passant_after_move (b : Board) (frm dst : Tile)
    (promotion : Option PieceType) (piece : Piece) (b' : Board)
    (hwf : frm.wf = true)
    (hpt : b.get_piece frm = some piece)
    (happ : b.perform_move_from_to frm dst promotion = (RRes.ok, b')) :
    b'.en_passant =
      (if b.is_castling_move_check frm dst then b.en_passant
       else if b.is_en_passant_capture frm dst then none
       else if b.is_valid_promotion frm dst then b.en_passant
       else if b.is_double_pawn_push frm dst then some (frm.advance piece.get_color 1)
       else none) := by
  unfold Board.perform_move_from_to at happ
  by_cases hleg : b.is_legal_piece_move frm dst = true
  case neg =>
    rw [if_pos (by simp [Bool.not_eq_true] at hleg ⊢; exact hleg)] at happ
    exact absurd (congrArg Prod.fst happ) (by simp)
  case pos =>
    rw [if_neg (by simp [hleg])] at happ
    rw [hpt] at happ
    dsimp only at happ
    by_cases hic : b.is_castling_move_check frm dst = true
    · rw [if_pos (by rw [Board.icmc_set_turn]; exact hic)] at happ
      injection happ with h1 h2
      rw [if_pos hic, ← h2]
      show (Board.perform_castling _ frm dst).en_passant = b.en_passant
      rw [Board.perform_castling_en_passant]
    · rw [if_neg (by rw [Board.icmc_set_turn]; exact hic)] at happ
      rw [if_neg hic]
      rw [Board.iepc_ddcr] at happ
      by_cases hep : b.is_en_passant_capture frm dst = true
      · rw [if_pos hep] at happ
        injection happ with h1 h2
        rw [if_pos hep, ← h2]
        obtain ⟨e, he⟩ := Board.iepc_some b frm dst hep
        dsimp only
        apply Board.capture_en_passant_none _ frm e
        rw [Board.ddcr_en_passant]
        exact he
      · rw [if_neg hep] at happ
        rw [if_neg hep]
        have hbitne : frm.to_bit ≠ dst.to_bit :=
          Board.legal_noncastling_bit_ne b frm dst piece hpt hleg
            (Bool.not_eq_true _ ▸ hic)
        have hgp4 : (Board.remove_piece (Board.detect_disabled_castling_rights
            { b with current_turn := piece.get_color } frm dst) dst).get_piece frm
            = b.get_piece frm := by
          rw [Board.get_piece_remove_ne _ dst frm hwf hbitne, Board.ddcr_get_piece]
          rfl
        rw [show (Board.remove_piece (Board.detect_disabled_castling_rights
            { b with current_turn := piece.get_color } frm dst) dst).is_valid_promotion frm dst
            = b.is_valid_promotion frm dst from Board.ivp_congr b _ frm dst hgp4] at happ
        by_cases hpr : b.is_valid_promotion frm dst = true
        · rw [if_pos hpr] at happ
          injection happ with h1 h2
          rw [if_pos hpr, ← h2]
          dsimp only
          rw [Board.spawn_en_passant]
          show (Board.remove_piece _ frm).en_passant = b.en_passant
          rw [show ∀ bb : Board, ∀ t, (Board.remove_piece bb t).en_passant = bb.en_passant
            from fun bb t => rfl]
          rw [show ∀ bb : Board, ∀ t, (Board.remove_piece bb t).en_passant = bb.en_passant
            from fun bb t => rfl]
          rw [Board.ddcr_en_passant]
        · rw [if_neg hpr] at happ
          injection happ with h1 h2
          rw [if_neg hpr, ← h2]
          dsimp only
          rw [Board.move_piece_en_passant, Board.detect_ep_result,
            Board.dpp_congr b _ frm dst (by rw [hgp4])]
          by_cases hdp : b.is_double_pawn_push frm dst = true
          · rw [if_pos hdp, if_pos hdp]
            have hturn : (Board.remove_piece (Board.detect_disabled_castling_rights
                { b with current_turn := piece.get_color } frm dst) dst).current_turn
                = piece.get_color := by
              rw [show ∀ bb : Board, ∀ t, (Board.remove_piece bb t).current_turn
                = bb.current_turn from fun bb t => rfl]
              rw [Board.ddcr_current_turn]
            rw [hturn]
          · rw [if_neg hdp, if_neg hdp]

set_option maxRecDepth 40000 in
/-- C4 (counterexample): in `cexC4Board` black has an en-passant window
on d6; white's king-side castling succeeds yet leaves that stale window
in place instead of clearing it, contradicting the spec's \"any other
move clears it\". -/
theorem c4_counterexample :
    (cexC4Board.apply (Move.castling CastlingSide.king)).1 = RRes.ok
      ∧ (cexC4Board.apply (Move.castling CastlingSide.king)).2.en_passant = some tD6 :=
  ⟨by decide, by decide⟩

set_option maxRecDepth 40000 in
theorem c4_witness :
    bPawnE2.perform_move_from_to tE2 tE4 none = (RRes.ok, bPawnE4)
      ∧ bPawnE4.en_passant = some tE3 := by
  refine ⟨by decide, ?_⟩
  have h := c4_amended_en_passant_after_move bPawnE2 tE2 tE4 none
    ⟨PieceType.pawn, Color.white⟩ bPawnE4 (by decide) (by decide) (by decide)
  rw [h]
  decide

theorem bool_imp_trans : ∀ x y z : Bool,
    (!x || y) = true → (!y || z) = true → (!x || z) = true := by decide

theorem cr_imp_refl (a : CastlingRights) : a.cr_imp a = true := by
  simp [CastlingRights.cr_imp]

theorem cr_imp_trans (a b c : CastlingRights) (h1 : a.cr_imp b = true)
    (h2 : b.cr_imp c = true) : a.cr_imp c = true := by
  simp only [CastlingRights.cr_imp, Bool.and_eq_true] at h1 h2 ⊢
  obtain ⟨⟨⟨x1, x2⟩, x3⟩, x4⟩ := h1
  obtain ⟨⟨⟨y1, y2⟩, y3⟩, y4⟩ := h2
  exact ⟨⟨⟨bool_imp_trans _ _ _ x1 y1, bool_imp_trans _ _ _ x2 y2⟩,
    bool_imp_trans _ _ _ x3 y3⟩, bool_imp_trans _ _ _ x4 y4⟩

theorem cr_imp_disable_cs (cr : CastlingRights) (c : Color) (s : CastlingSide) :
    (cr.disable_castling_color_and_side c s).cr_imp cr = true := by
  cases c <;> cases s <;>
    simp [CastlingRights.disable_castling_color_and_side, CastlingRights.cr_imp]

theorem cr_imp_disable_color (cr : CastlingRights) (c : Color) :
    (cr.disable_castling_color c).cr_imp cr = true := by
  cases c <;> simp [CastlingRights.disable_castling_color, CastlingRights.cr_imp]

theorem cr_imp_disable (cr : CastlingRights) (k r : Tile) :
    (cr.disable_castling k r).cr_imp cr = true := by
  unfold CastlingRights.disable_castling
  split
  · exact cr_imp_refl cr
  · exact cr_imp_disable_cs cr _ _

theorem Board.spawn_castling_rights (b : Board) (p : PieceType) (t : Tile) :
    (b.spawn p t).castling_rights = b.castling_rights := by
  cases h : b.current_turn <;> cases p <;> simp [Board.spawn, Board.remove_piece, h]

theorem Board.capture_en_passant_castling_rights (b : Board) (f : Tile) :
    (b.capture_en_passant f).castling_rights = b.castling_rights := by
  unfold Board.capture_en_passant
  split <;> rfl

theorem Board.detect_ep_castling_rights (b : Board) (f d : Tile) :
    (b.detect_possible_en_passant f d).castling_rights = b.castling_rights := by
  unfold Board.detect_possible_en_passant
  dsimp only
  repeat' split
  all_goals rfl

theorem cr_imp_perform_castling (b : Board) (k r : Tile) :
    (b.perform_castling k r).castling_rights.cr_imp b.castling_rights = true := by
  unfold Board.perform_castling
  split
  · exact cr_imp_refl _
  · exact cr_imp_disable b.castling_rights k r

theorem cr_imp_ddcr (b : Board) (f d : Tile) :
    (b.detect_disabled_castling_rights f d).castling_rights.cr_imp b.castling_rights = true := by
  unfold Board.detect_disabled_castling_rights
  split
  · exact cr_imp_disable_color _ _
  · split
    · split
      · split
        · exact cr_imp_trans _ _ _ (cr_imp_disable_cs _ _ _) (cr_imp_disable_cs _ _ _)
        · exact cr_imp_disable_cs _ _ _
      · split
        · exact cr_imp_disable_cs _ _ _
        · exact cr_imp_refl _
    · split
      · split
        · split
          · exact cr_imp_trans _ _ _ (cr_imp_disable_cs _ _ _) (cr_imp_disable_cs _ _ _)
          · exact cr_imp_disable_cs _ _ _
        · split
          · exact cr_imp_disable_cs _ _ _
          · exact cr_imp_refl _
      · split
        · exact cr_imp_disable_color _ _
        · split
          · exact cr_imp_disable_color _ _
          · exact cr_imp_refl _

theorem cr_mono_pmft (b : Board) (f d : Tile) (p : Option PieceType) :
    (b.perform_move_from_to f d p).2.castling_rights.cr_imp b.castling_rights = true := by
  unfold Board.perform_move_from_to
  split
  · exact cr_imp_refl _
  · split
    · exact cr_imp_refl _
    · dsimp only
      split
      · exact cr_imp_perform_castling _ f d
      · split
        · rw [Board.capture_en_passant_castling_rights]
          exact cr_imp_ddcr _ f d
        · split
          · rw [Board.spawn_castling_rights]
            exact cr_imp_ddcr _ f d
          · rw [show ∀ bb : Board, ∀ ff dd : Tile,
              (bb.move_piece ff dd).castling_rights = bb.castling_rights
              from fun bb ff dd => rfl]
            rw [Board.detect_ep_castling_rights]
            exact cr_imp_ddcr _ f d

mutual

theorem cr_mono_apply : ∀ (m : Move) (b : Board),
    (b.apply m).2.castling_rights.cr_imp b.castling_rights = true
  | .fromTo f d p, b => cr_mono_pmft b f d p
  | .pieceTo piece d p, b => by
    show ((match b.get_eligible_piece piece d with
      | some frm => b.perform_move_from_to frm d p
      | none => (RRes.err, b)) : RRes × Board).2.castling_rights.cr_imp b.castling_rights = true
    match b.get_eligible_piece piece d with
    | some frm => exact cr_mono_pmft b frm d p
    | none => exact cr_imp_refl _
  | .castling side, b => cr_mono_pmft b _ _ none
  | .many ms, b => by
    show ((if ms.isEmpty then ((RRes.ok, b) : RRes × Board)
      else Board.apply_many b.current_turn b ms)).2.castling_rights.cr_imp b.castling_rights
      = true
    split
    · exact cr_imp_refl _
    · exact cr_mono_apply_many ms b.current_turn b
  | .resign, b => cr_imp_refl _
  | .pass, b => cr_imp_refl _
  | .purchase piece d, b => by
    show (({ b.spawn piece d with
      current_turn := (b.spawn piece d).current_turn.enemy } : Board)).castling_rights.cr_imp
      b.castling_rights = true
    rw [show ({ b.spawn piece d with
      current_turn := (b.spawn piece d).current_turn.enemy } : Board).castling_rights
      = (b.spawn piece d).castling_rights from rfl]
    rw [Board.spawn_castling_rights]
    exact cr_imp_refl _

theorem cr_mono_apply_many : ∀ (ms : MoveList) (t : Color) (b : Board),
    (Board.apply_many t b ms).2.castling_rights.cr_imp b.castling_rights = true
  | .nil, t, b => cr_imp_refl _
  | .cons m ms, t, b => by
    show ((match ({ b with current_turn := t } : Board).apply m with
      | (RRes.ok, b2) => Board.apply_many t b2 ms
      | (RRes.err, b2) => ((RRes.err, b2) : RRes × Board))).2.castling_rights.cr_imp
      b.castling_rights = true
    rcases hap : ({ b with current_turn := t } : Board).apply m with ⟨r, b2⟩
    have h1 : b2.castling_rights.cr_imp b.castling_rights = true := by
      have := cr_mono_apply m { b with current_turn := t }
      rw [hap] at this
      exact this
    cases r with
    | ok => exact cr_imp_trans _ _ _ (cr_mono_apply_many ms t b2) h1
    | err => exact h1

end

/-- C7: no move applied through `Board::apply` ever re-enables a
castling-rights flag: every flag set after the call was already set
before it. -/
theorem c7_castling_rights_monotone (b : Board) (m : Move) :
    (b.apply m).2.castling_rights.cr_imp b.castling_rights = true :=
  cr_mono_apply m b

theorem nat_eq_zero_iff_testBit (x : Nat) : x = 0 ↔ ∀ i, x.testBit i = false :=
  ⟨fun h i => by simp [h], fun h => Nat.eq_of_testBit_eq (fun i => by simp [h i])⟩

theorem nat_and_or_left (x a b : Nat) : x &&& (a ||| b) = (x &&& a) ||| (x &&& b) := by
  apply Nat.eq_of_testBit_eq
  intro i
  simp only [Nat.testBit_land, Nat.testBit_lor]
  cases x.testBit i <;> cases a.testBit i <;> cases b.testBit i <;> rfl

theorem nat_or_and_right (a b x : Nat) : (a ||| b) &&& x = (a &&& x) ||| (b &&& x) := by
  apply Nat.eq_of_testBit_eq
  intro i
  simp only [Nat.testBit_land, Nat.testBit_lor]
  cases x.testBit i <;> cases a.testBit i <;> cases b.testBit i <;> rfl

theorem or_and_eq_zero_iff (a b c : Nat) :
    (a ||| b) &&& c = 0 ↔ (a &&& c = 0 ∧ b &&& c = 0) := by
  rw [nat_or_and_right]
  constructor
  · intro h
    constructor
    · rw [nat_eq_zero_iff_testBit] at h ⊢
      intro i
      have := h i
      simp only [Nat.testBit_lor, Bool.or_eq_false_iff] at this
      exact this.1
    · rw [nat_eq_zero_iff_testBit] at h ⊢
      intro i
      have := h i
      simp only [Nat.testBit_lor, Bool.or_eq_false_iff] at this
      exact this.2
  · intro ⟨h1, h2⟩
    rw [h1, h2]
    rfl

theorem and_c_disj {a b : Nat} (c : Nat) (h : a &&& b = 0) :
    (a &&& c) &&& (b &&& c) = 0 := by
  rw [nat_eq_zero_iff_testBit] at h ⊢
  intro i
  have := h i
  simp only [Nat.testBit_land] at this ⊢
  cases hx : a.testBit i <;> cases hy : b.testBit i <;> simp_all

theorem and_compl64_self (a k : Nat) (ha : a < 2 ^ 64) :
    (a &&& compl64 (1 <<< k)) &&& (1 <<< k) = 0 := by
  rw [nat_eq_zero_iff_testBit]
  intro i
  simp only [Nat.testBit_land, compl64, mask64, Nat.testBit_xor, Nat.one_shiftLeft]
  by_cases hik : i = k
  · subst hik
    by_cases hk : i < 64
    · rw [Nat.testBit_two_pow_sub_one]
      simp [hk]
    · rw [Nat.testBit_lt_two_pow (lt_of_lt_of_le ha (Nat.pow_le_pow_right (by omega) (by omega)))]
      rfl
  · rw [Nat.testBit_two_pow_of_ne (fun h => hik h.symm)]
    simp

theorem disj_or_bit {x y : Nat} (bit : Nat) (hxy : x &&& y = 0) (hyb : y &&& bit = 0) :
    (x ||| bit) &&& y = 0 := by
  rw [nat_or_and_right, hxy, Nat.and_comm bit y, hyb]
  rfl

theorem and_pow_ne_zero_iff (x k : Nat) : x &&& (1 <<< k) ≠ 0 ↔ x.testBit k = true := by
  constructor
  · intro h
    by_contra hc
    apply h
    rw [nat_eq_zero_iff_testBit]
    intro i
    simp only [Nat.testBit_land, Nat.one_shiftLeft]
    by_cases hik : i = k
    · subst hik
      simp only [Bool.not_eq_true] at hc
      rw [hc]
      rfl
    · rw [Nat.testBit_two_pow_of_ne (fun h2 => hik h2.symm)]
      simp
  · intro h hc
    have : (x &&& (1 <<< k)).testBit k = false := by rw [hc]; simp
    rw [Nat.testBit_land, h, Nat.one_shiftLeft, Nat.testBit_two_pow_self] at this
    exact Bool.noConfusion this

theorem shared_bit_ne {x y k : Nat} (hx : x &&& (1 <<< k) ≠ 0) (hy : y &&& (1 <<< k) ≠ 0) :
    x &&& y ≠ 0 := by
  rw [and_pow_ne_zero_iff] at hx hy
  intro hc
  have : (x &&& y).testBit k = false := by rw [hc]; simp
  rw [Nat.testBit_land, hx, hy] at this
  exact Bool.noConfusion this

theorem move_bit_disj {x y : Nat} (f d : Tile) (hxy : x &&& y = 0)
    (hxd : x &&& d.to_bit = 0) (hyd : y &&& d.to_bit = 0) :
    move_bit x f d &&& move_bit y f d = 0 := by
  unfold move_bit
  by_cases hxf : x &&& f.to_bit = 0
  · rw [if_pos hxf]
    by_cases hyf : y &&& f.to_bit = 0
    · rw [if_pos hyf]
      exact hxy
    · rw [if_neg hyf]
      rw [nat_and_or_left]
      rw [Nat.and_comm x (y &&& compl64 f.to_bit)]
      rw [Nat.and_assoc, Nat.and_comm (compl64 f.to_bit) x, ← Nat.and_assoc]
      rw [Nat.and_comm y x, hxy, Nat.zero_and, Nat.zero_or, hxd]
  · rw [if_neg hxf]
    by_cases hyf : y &&& f.to_bit = 0
    · rw [if_pos hyf]
      rw [nat_or_and_right]
      rw [Nat.and_assoc, Nat.and_comm (compl64 f.to_bit) y, ← Nat.and_assoc, hxy,
        Nat.zero_and, Nat.zero_or, Nat.and_comm d.to_bit y, hyd]
    · exact absurd (shared_bit_ne hxf hyf) (by simp [hxy])

theorem pairwise_and_mask {l : List Nat} (c : Nat) (h : List.Pairwise disjBits l) :
    List.Pairwise disjBits (l.map (fun x => x &&& c)) := by
  rw [List.pairwise_map]
  exact h.imp (fun hab => and_c_disj c hab)

theorem pairwise_move_bit {l : List Nat} (f d : Tile)
    (h : List.Pairwise disjBits l) (hd : ∀ x ∈ l, x &&& d.to_bit = 0) :
    List.Pairwise disjBits (l.map (fun x => move_bit x f d)) := by
  rw [List.pairwise_map]
  apply List.Pairwise.imp_of_mem _ h
  intro a b ha hb hab
  exact move_bit_disj f d hab (hd a ha) (hd b hb)

theorem pairwise_upd (bit : Nat) :
    ∀ (pre : List Nat) (a : Nat) (post : List Nat),
    List.Pairwise disjBits (pre ++ a :: post) →
    (∀ x ∈ pre ++ a :: post, x &&& bit = 0) →
    List.Pairwise disjBits (pre ++ (a ||| bit) :: post)
  | [], a, post, hp, hb => by
    simp only [List.nil_append, List.pairwise_cons] at hp ⊢
    refine ⟨fun y hy => ?_, hp.2⟩
    exact disj_or_bit bit (hp.1 y hy) (hb y (by simp [hy]))
  | p :: pre, a, post, hp, hb => by
    simp only [List.cons_append, List.pairwise_cons] at hp ⊢
    constructor
    · intro y hy
      rcases List.mem_append.1 hy with hy2 | hy2
      · exact hp.1 y (by simp [List.mem_append, hy2])
      · rcases List.mem_cons.1 hy2 with hy3 | hy3
        · subst hy3
          have hpa : disjBits p a := hp.1 a (by simp)
          have hpb : p &&& bit = 0 := hb p (by simp)
          show p &&& (a ||| bit) = 0
          rw [nat_and_or_left, hpa, Nat.zero_or, hpb]
        · exact hp.1 y (by simp [List.mem_append, hy3])
    · exact pairwise_upd bit pre a post hp.2 (fun x hx => hb x (by simp [List.mem_append] at hx ⊢; tauto))

theorem ofl_iff : ∀ (l : List Nat) (bits : Nat),
    overlap_free_list bits l = true
      ↔ ((∀ x ∈ l, bits &&& x = 0) ∧ List.Pairwise disjBits l)
  | [], bits => by simp [overlap_free_list]
  | m :: rest, bits => by
    unfold overlap_free_list
    by_cases hc : bits &&& m ≠ 0
    · simp only [if_pos hc]
      constructor
      · intro h
        exact Bool.noConfusion h
      · intro ⟨h1, _⟩
        exact absurd (h1 m (by simp)) hc
    · simp only [if_neg hc]
      rw [ofl_iff rest (bits ||| m)]
      push_neg at hc
      constructor
      · intro ⟨h1, h2⟩
        constructor
        · intro x hx
          rcases List.mem_cons.1 hx with hx2 | hx2
          · subst hx2
            exact hc
          · exact ((or_and_eq_zero_iff bits m x).1 (h1 x hx2)).1
        · rw [List.pairwise_cons]
          refine ⟨fun y hy => ?_, h2⟩
          exact ((or_and_eq_zero_iff bits m y).1 (h1 y hy)).2
      · intro ⟨h1, h2⟩
        rw [List.pairwise_cons] at h2
        refine ⟨fun x hx => ?_, h2.2⟩
        rw [or_and_eq_zero_iff]
        exact ⟨h1 x (by simp [hx]), h2.1 x hx⟩

theorem masks_overlap_free_eq_ofl (b : Board) :
    b.masks_overlap_free = overlap_free_list 0 b.masks_list := by
  unfold Board.masks_overlap_free overlap_free_list Board.masks_list
  simp only [Nat.zero_and, Nat.zero_or]
  rfl

theorem masks_overlap_free_iff_pairwise (b : Board) :
    b.masks_overlap_free = true ↔ List.Pairwise disjBits b.masks_list := by
  rw [masks_overlap_free_eq_ofl, ofl_iff]
  constructor
  · exact fun h => h.2
  · intro h
    exact ⟨fun x _ => Nat.zero_and x, h⟩

theorem binv_upd (bit : Nat) (hbit : bit < 2 ^ 64) (pre : List Nat) (a : Nat) (post : List Nat)
    (hp : List.Pairwise disjBits (pre ++ a :: post))
    (hlt : ∀ x ∈ pre ++ a :: post, x < 2 ^ 64)
    (hd : ∀ x ∈ pre ++ a :: post, x &&& bit = 0) :
    List.Pairwise disjBits (pre ++ (a ||| bit) :: post)
      ∧ ∀ x ∈ pre ++ (a ||| bit) :: post, x < 2 ^ 64 := by
  refine ⟨pairwise_upd bit pre a post hp hd, ?_⟩
  intro x hx
  rcases List.mem_append.1 hx with h1 | h1
  · exact hlt x (List.mem_append.2 (Or.inl h1))
  · rcases List.mem_cons.1 h1 with h2 | h2
    · subst h2
      exact Nat.or_lt_two_pow (hlt a (List.mem_append.2 (Or.inr (List.mem_cons_self a post)))) hbit
    · exact hlt x (List.mem_append.2 (Or.inr (List.mem_cons_of_mem a h2)))

theorem tile_to_bit_lt (t : Tile) (h : t.wf = true) : t.to_bit < 2 ^ 64 := by
  rw [Tile.to_bit_pos, Nat.one_shiftLeft]
  exact Nat.pow_lt_pow_right (by omega) (Tile.pos_lt_of_wf t h)

theorem and_compl64_tile (a : Nat) (t : Tile) (ha : a < 2 ^ 64) :
    (a &&& compl64 t.to_bit) &&& t.to_bit = 0 :=
  and_compl64_self a (t.rank.val * 8 + t.file.val) ha

theorem move_bit_lt {x : Nat} (f d : Tile) (hx : x < 2 ^ 64) (hb : d.to_bit < 2 ^ 64) :
    move_bit x f d < 2 ^ 64 := by
  unfold move_bit
  dsimp only
  split
  · exact hx
  · exact Nat.or_lt_two_pow (lt_of_le_of_lt Nat.and_le_left hx) hb

theorem Tile.advance_wf (t : Tile) (c : Color) (n : Int) (h : t.wf = true) :
    (t.advance c n).wf = true := by
  unfold Tile.wf at h
  unfold Tile.advance Rank.advance Tile.wf
  simp only [Bool.and_eq_true, decide_eq_true_eq] at h ⊢
  refine ⟨?_, h.2⟩
  split
  · next h2 =>
      dsimp only
      omega
  · exact h.1

theorem masks_list_remove (b : Board) (t : Tile) :
    (b.remove_piece t).masks_list = b.masks_list.map (fun x => x &&& compl64 t.to_bit) := rfl

theorem masks_list_move (b : Board) (f d : Tile) :
    (b.move_piece f d).masks_list
      = ((b.remove_piece d).masks_list).map (fun x => move_bit x f d) := rfl

theorem BInv_remove (b : Board) (t : Tile) (h : BInv b) : BInv (b.remove_piece t) := by
  obtain ⟨hp, hlt, hep⟩ := h
  refine ⟨?_, ?_, ?_⟩
  · rw [masks_list_remove]
    exact pairwise_and_mask _ hp
  · rw [masks_list_remove]
    intro x hx
    obtain ⟨y, hy, rfl⟩ := List.mem_map.1 hx
    exact lt_of_le_of_lt Nat.and_le_left (hlt y hy)
  · exact fun e he => hep e he

theorem remove_masks_dst_free (b : Board) (t : Tile) (h : BInv b) :
    ∀ x ∈ (b.remove_piece t).masks_list, x &&& t.to_bit = 0 := by
  intro x hx
  rw [masks_list_remove] at hx
  obtain ⟨y, hy, rfl⟩ := List.mem_map.1 hx
  exact and_compl64_tile y t (h.2.1 y hy)

theorem BInv_move (b : Board) (f d : Tile) (hdw : d.wf = true) (h : BInv b) :
    BInv (b.move_piece f d) := by
  obtain ⟨hp, hlt, hep⟩ := BInv_remove b d h
  have hdd := remove_masks_dst_free b d h
  refine ⟨?_, ?_, ?_⟩
  · rw [masks_list_move]
    exact pairwise_move_bit f d hp hdd
  · rw [masks_list_move]
    intro x hx
    obtain ⟨y, hy, rfl⟩ := List.mem_map.1 hx
    exact move_bit_lt f d (hlt y hy) (tile_to_bit_lt d hdw)
  · exact fun e he => hep e he

theorem BInv_spawn (b : Board) (p : PieceType) (d : Tile) (hdw : d.wf = true) (h : BInv b) :
    BInv (b.spawn p d) := by
  obtain ⟨hp, hlt, hep⟩ := BInv_remove b d h
  have hdd := remove_masks_dst_free b d h
  have hbit : d.to_bit < 2 ^ 64 := tile_to_bit_lt d hdw
  unfold Board.spawn
  dsimp only
  cases hc : (b.remove_piece d).current_turn <;> cases p <;> dsimp only
  case white.pawn =>
    obtain ⟨h1, h2⟩ := binv_upd _ hbit [] _ _ hp hlt hdd
    exact ⟨h1, h2, fun e he => hep e he⟩
  case white.knight =>
    obtain ⟨h1, h2⟩ := binv_upd _ hbit [(b.remove_piece d).white_pawns] _ _ hp hlt hdd
    exact ⟨h1, h2, fun e he => hep e he⟩
  case white.bishop =>
    obtain ⟨h1, h2⟩ := binv_upd _ hbit
      [(b.remove_piece d).white_pawns, (b.remove_piece d).white_knights] _ _ hp hlt hdd
    exact ⟨h1, h2, fun e he => hep e he⟩
  case white.rook =>
    obtain ⟨h1, h2⟩ := binv_upd _ hbit
      [(b.remove_piece d).white_pawns, (b.remove_piece d).white_knights,
        (b.remove_piece d).white_bishops] _ _ hp hlt hdd
    exact ⟨h1, h2, fun e he => hep e he⟩
  case white.queen =>
    obtain ⟨h1, h2⟩ := binv_upd _ hbit
      [(b.remove_piece d).white_pawns, (b.remove_piece d).white_knights,
        (b.remove_piece d).white_bishops, (b.remove_piece d).white_rooks] _ _ hp hlt hdd
    exact ⟨h1, h2, fun e he => hep e he⟩
  case white.king =>
    obtain ⟨h1, h2⟩ := binv_upd _ hbit
      [(b.remove_piece d).white_pawns, (b.remove_piece d).white_knights,
        (b.remove_piece d).white_bishops, (b.remove_piece d).white_rooks,
        (b.remove_piece d).white_queens] _ _ hp hlt hdd
    exact ⟨h1, h2, fun e he => hep e he⟩
  case black.pawn =>
    obtain ⟨h1, h2⟩ := binv_upd _ hbit
      [(b.remove_piece d).white_pawns, (b.remove_piece d).white_knights,
        (b.remove_piece d).white_bishops, (b.remove_piece d).white_rooks,
        (b.remove_piece d).white_queens, (b.remove_piece d).white_king] _ _ hp hlt hdd
    exact ⟨h1, h2, fun e he => hep e he⟩
  case black.knight =>
    obtain ⟨h1, h2⟩ := binv_upd _ hbit
      [(b.remove_piece d).white_pawns, (b.remove_piece d).white_knights,
        (b.remove_piece d).white_bishops, (b.remove_piece d).white_rooks,
        (b.remove_piece d).white_queens, (b.remove_piece d).white_king,
        (b.remove_piece d).black_pawns] _ _ hp hlt hdd
    exact ⟨h1, h2, fun e he => hep e he⟩
  case black.bishop =>
    obtain ⟨h1, h2⟩ := binv_upd _ hbit
      [(b.remove_piece d).white_pawns, (b.remove_piece d).white_knights,
        (b.remove_piece d).white_bishops, (b.remove_piece d).white_rooks,
        (b.remove_piece d).white_queens, (b.remove_piece d).white_king,
        (b.remove_piece d).black_pawns, (b.remove_piece d).black_knights] _ _ hp hlt hdd
    exact ⟨h1, h2, fun e he => hep e he⟩
  case black.rook =>
    obtain ⟨h1, h2⟩ := binv_upd _ hbit
      [(b.remove_piece d).white_pawns, (b.remove_piece d).white_knights,
        (b.remove_piece d).white_bishops, (b.remove_piece d).white_rooks,
        (b.remove_piece d).white_queens, (b.remove_piece d).white_king,
        (b.remove_piece d).black_pawns, (b.remove_piece d).black_knights,
        (b.remove_piece d).black_bishops] _ _ hp hlt hdd
    exact ⟨h1, h2, fun e he => hep e he⟩
  case black.queen =>
    obtain ⟨h1, h2⟩ := binv_upd _ hbit
      [(b.remove_piece d).white_pawns, (b.remove_piece d).white_knights,
        (b.remove_piece d).white_bishops, (b.remove_piece d).white_rooks,
        (b.remove_piece d).white_queens, (b.remove_piece d).white_king,
        (b.remove_piece d).black_pawns, (b.remove_piece d).black_knights,
        (b.remove_piece d).black_bishops, (b.remove_piece d).black_rooks] _ _ hp hlt hdd
    exact ⟨h1, h2, fun e he => hep e he⟩
  case black.king =>
    obtain ⟨h1, h2⟩ := binv_upd _ hbit
      [(b.remove_piece d).white_pawns, (b.remove_piece d).white_knights,
        (b.remove_piece d).white_bishops, (b.remove_piece d).white_rooks,
        (b.remove_piece d).white_queens, (b.remove_piece d).white_king,
        (b.remove_piece d).black_pawns, (b.remove_piece d).black_knights,
        (b.remove_piece d).black_bishops, (b.remove_piece d).black_rooks,
        (b.remove_piece d).black_queens] _ _ hp hlt hdd
    exact ⟨h1, h2, fun e he => hep e he⟩

theorem BInv_capture_ep (b : Board) (f : Tile) (h : BInv b) :
    BInv (b.capture_en_passant f) := by
  unfold Board.capture_en_passant
  cases he : b.en_passant with
  | none => exact h
  | some e =>
    dsimp only
    have hew : e.wf = true := h.2.2 e he
    have h2 := BInv_move _ f e hew (BInv_remove b (e.advance b.current_turn (-1)) h)
    exact ⟨h2.1, h2.2.1, fun e2 he2 => Option.noConfusion he2⟩

theorem dpp_masks (b : Board) (f d : Tile) :
    (b.detect_possible_en_passant f d).masks_list = b.masks_list := by
  unfold Board.detect_possible_en_passant
  dsimp only
  repeat' split
  all_goals rfl

theorem BInv_dpp (b : Board) (f d : Tile) (hf : f.wf = true) (h : BInv b) :
    BInv (b.detect_possible_en_passant f d) := by
  obtain ⟨hp, hlt, hep⟩ := h
  refine ⟨?_, ?_, ?_⟩
  · rw [dpp_masks]
    exact hp
  · rw [dpp_masks]
    exact hlt
  · intro e he
    rw [Board.detect_ep_result] at he
    split at he
    · injection he with h3
      subst h3
      exact Tile.advance_wf f _ 1 hf
    · exact Option.noConfusion he

theorem king_dest_wf (c : Color) (s : CastlingSide) :
    (Tile.castling_destination_for_king c s).wf = true := by
  cases c <;> cases s <;> rfl

theorem rook_dest_wf (c : Color) (s : CastlingSide) :
    (Tile.castling_destination_for_rook c s).wf = true := by
  cases c <;> cases s <;> rfl

theorem BInv_castling (b : Board) (kt rt : Tile) (h : BInv b) :
    BInv (b.perform_castling kt rt) := by
  unfold Board.perform_castling
  split
  · exact h
  · dsimp only
    exact BInv_move _ rt _ (rook_dest_wf _ _)
      (BInv_move _ kt _ (king_dest_wf _ _) ⟨h.1, h.2.1, h.2.2⟩)

theorem ddcr_masks (b : Board) (f d : Tile) :
    (b.detect_disabled_castling_rights f d).masks_list = b.masks_list := by
  rw [Board.ddcr_as_update]
  rfl

theorem BInv_ddcr (b : Board) (f d : Tile) (h : BInv b) :
    BInv (b.detect_disabled_castling_rights f d) := by
  refine ⟨?_, ?_, ?_⟩
  · rw [ddcr_masks]
    exact h.1
  · rw [ddcr_masks]
    exact h.2.1
  · intro e he
    rw [Board.ddcr_en_passant] at he
    exact h.2.2 e he

theorem BInv_set_turn_aux (b : Board) (c : Color) (h : BInv b) :
    BInv { b with current_turn := c } :=
  ⟨h.1, h.2.1, h.2.2⟩

theorem BInv_pmft (b : Board) (frm dst : Tile) (promo : Option PieceType)
    (hf : frm.wf = true) (hd : dst.wf = true) (h : BInv b) :
    BInv (b.perform_move_from_to frm dst promo).2 := by
  unfold Board.perform_move_from_to
  split
  · exact h
  · split
    · exact h
    · next piece heq =>
      dsimp only
      have h1 : BInv { b with current_turn := piece.get_color } :=
        BInv_set_turn_aux b _ h
      split
      · exact BInv_set_turn_aux _ _ (BInv_castling _ frm dst h1)
      · have h2 := BInv_ddcr { b with current_turn := piece.get_color } frm dst h1
        split
        · exact BInv_set_turn_aux _ _ (BInv_capture_ep _ frm h2)
        · have h3 := BInv_remove _ dst h2
          split
          · exact BInv_set_turn_aux _ _
              (BInv_spawn _ _ dst hd (BInv_remove _ frm h3))
          · exact BInv_set_turn_aux _ _
              (BInv_move _ frm dst hd (BInv_dpp _ frm dst hf h3))

theorem eligible_wf (b : Board) (p : PieceType) (d t : Tile)
    (h : b.get_eligible_piece p d = some t) : t.wf = true := by
  unfold Board.get_eligible_piece at h
  have hmem : t ∈ Tile.all := List.mem_of_find?_eq_some h
  unfold Tile.all at hmem
  obtain ⟨n, hn, rfl⟩ := List.mem_map.1 hmem
  have hn2 : n < 64 := List.mem_range.1 hn
  unfold Tile.from_nth Tile.wf
  dsimp only
  simp only [Bool.and_eq_true, decide_eq_true_eq]
  omega

theorem king_start_wf (c : Color) : (Tile.king_start_position c).wf = true := by
  cases c <;> rfl

theorem rook_start_wf (c : Color) (s : CastlingSide) :
    (Tile.rook_start_position c s).wf = true := by
  cases c <;> cases s <;> rfl

mutual

theorem BInv_apply : ∀ (m : Move) (b : Board), m.wf = true → BInv b → BInv (b.apply m).2
  | .fromTo f d p, b, hm, h => by
    have h2 : (f.wf && d.wf) = true := hm
    simp only [Bool.and_eq_true] at h2
    exact BInv_pmft b f d p h2.1 h2.2 h
  | .pieceTo piece d p, b, hm, h => by
    show BInv ((match b.get_eligible_piece piece d with
      | some frm => b.perform_move_from_to frm d p
      | none => (RRes.err, b)) : RRes × Board).2
    cases he : b.get_eligible_piece piece d with
    | some frm => exact BInv_pmft b frm d p (eligible_wf b piece d frm he) hm h
    | none => exact h
  | .castling side, b, hm, h =>
    BInv_pmft b (Tile.king_start_position b.current_turn)
      (Tile.rook_start_position b.current_turn side) none
      (king_start_wf _) (rook_start_wf _ _) h
  | .many ms, b, hm, h => by
    show BInv ((if ms.isEmpty then ((RRes.ok, b) : RRes × Board)
      else Board.apply_many b.current_turn b ms)).2
    split
    · exact h
    · exact BInv_apply_many ms b.current_turn b hm h
  | .resign, b, hm, h => ⟨h.1, h.2.1, fun e he => h.2.2 e he⟩
  | .pass, b, hm, h => ⟨h.1, h.2.1, fun e he => h.2.2 e he⟩
  | .purchase piece d, b, hm, h =>
    BInv_set_turn_aux _ _ (BInv_spawn b piece d hm h)

theorem BInv_apply_many : ∀ (ms : MoveList) (t : Color) (b : Board),
    ms.wf = true → BInv b → BInv (Board.apply_many t b ms).2
  | .nil, t, b, _, h => ⟨h.1, h.2.1, fun e he => h.2.2 e he⟩
  | .cons m ms, t, b, hms, h => by
    have h0 : (m.wf && ms.wf) = true := hms
    simp only [Bool.and_eq_true] at h0
    show BInv ((match ({ b with current_turn := t } : Board).apply m with
      | (RRes.ok, b2) => Board.apply_many t b2 ms
      | (RRes.err, b2) => ((RRes.err, b2) : RRes × Board))).2
    rcases hap : ({ b with current_turn := t } : Board).apply m with ⟨r, b2⟩
    have h1 : BInv b2 := by
      have h3 := BInv_apply m { b with current_turn := t } h0.1 (BInv_set_turn_aux b t h)
      rw [hap] at h3
      exact h3
    cases r with
    | ok => exact BInv_apply_many ms t b2 h0.2 h1
    | err => exact h1

end

theorem BInv_of (b : Board) (hw : b.wf = true) (hof : b.masks_overlap_free = true) :
    BInv b := by
  unfold Board.wf at hw
  simp only [Bool.and_eq_true, List.all_eq_true, decide_eq_true_eq] at hw
  refine ⟨(masks_overlap_free_iff_pairwise b).1 hof, hw.1, ?_⟩
  intro e he
  have h2 := hw.2
  rw [he] at h2
  exact h2

/-- C8: every mutation of the core `Board` — `apply` on a well-typed
move, `spawn`, `remove_piece`, and the internal `move_piece` relocation
they perform — preserves the `sanity_check` mask invariant: starting
from a board whose twelve `u64` occupancy masks are pairwise disjoint
(no square set in more than one mask), the resulting board's masks are
again pairwise disjoint. -/
theorem c8_mask_disjointness_preserved (b : Board) (hw : b.wf = true)
    (hof : b.masks_overlap_free = true) :
    (∀ m : Move, m.wf = true → (b.apply m).2.masks_overlap_free = true)
      ∧ (∀ p : PieceType, ∀ d : Tile, d.wf = true →
          (b.spawn p d).masks_overlap_free = true)
      ∧ (∀ d : Tile, (b.remove_piece d).masks_overlap_free = true)
      ∧ (∀ f d : Tile, d.wf = true → (b.move_piece f d).masks_overlap_free = true) := by
  have hb : BInv b := BInv_of b hw hof
  refine ⟨?_, ?_, ?_, ?_⟩
  · exact fun m hm => (masks_overlap_free_iff_pairwise _).2 (BInv_apply m b hm hb).1
  · exact fun p d hd => (masks_overlap_free_iff_pairwise _).2 (BInv_spawn b p d hd hb).1
  · exact fun d => (masks_overlap_free_iff_pairwise _).2 (BInv_remove b d hb).1
  · exact fun f d hd => (masks_overlap_free_iff_pairwise _).2 (BInv_move b f d hd hb).1

set_option maxRecDepth 40000 in
/-- Witness for C8: the pawn-on-e2 board is well formed with disjoint
masks, the double push e2-e4 is a well-typed move, and the board after
applying it still has pairwise-disjoint masks. -/
theorem c8_witness :
    bPawnE2.wf = true ∧ bPawnE2.masks_overlap_free = true
      ∧ (Move.fromTo tE2 tE4 none).wf = true
      ∧ (bPawnE2.apply (Move.fromTo tE2 tE4 none)).2.masks_overlap_free = true :=
  ⟨by decide, by decide, by decide,
    (c8_mask_disjointness_preserved bPawnE2 (by decide) (by decide)).1
      (Move.fromTo tE2 tE4 none) (by decide)⟩
